import Mathlib

/-!
# MP-controller: the NLP formulation of `MPC.cpp`

A shallow embedding of `src/src/MPC.cpp` (`FG_eval::operator()` and
`MPC::Solve`) together with theorems about it.

Modelling conventions.

* `double` and `AD<double>` are one scalar type `α`, a linearly ordered field:
  arithmetic is exact, so rounding, overflow to infinity and NaN are outside the
  model.  `CppAD::cos`, `CppAD::sin` and `CppAD::atan` are the three fields of a
  `Trig α` value that is passed in; `M_PI` is passed in as a scalar.
* `size_t` quantities are `Nat`.  The source fixes `N = 10` and `dt = 0.1` in two
  mutable globals; here `N` and `dt` are parameters and the offsets are functions
  of `N`.  No `size_t` expression of the source wraps when `2 ≤ N`, which every
  theorem that depends on it assumes.
* `ADvector` (`fg`, `vars` of `FG_eval::operator()`) is a function `Nat → α`; an
  assignment `fg[i] = e` is `Function.update fg i e`.
* `Eigen::VectorXd` and `Dvector` are `List α`; `v[i]` is `List.getD v i 0` and
  `v[i] = e` is `List.set v i e`.  A freshly constructed `Dvector v(n)` has `n`
  entries of unspecified content, taken from a parameter `junk`.
* `CppAD::ipopt::solve` is a parameter of `MPC.Solve`; a variable vector satisfies the
  constraint bounds when `lower[i] ≤ fg[1 + i] ≤ upper[i]` at every constraint index.
* `FG_eval.operator_traced` is `FG_eval.operator` with a record of the indices of `vars`
  it reads and of `fg` it assigns; the two are proved to compute the same `fg`.
* Exact arithmetic decides one property of the objective differently from `double`
  arithmetic: whether a cost of `0` forces every deviation to `0`.  For it the cost loops
  are given a second time, `FG_eval.cost_rounded`, with a rounding `fl` applied to the
  result of every operation; with the rounding switched off this is the objective of
  `FG_eval.operator`.
-/

namespace MPCController

variable {α : Type}

/-! ## Loops -/

/-- The loop `for (int t = lo; t < hi; t++) s = body t s`. -/
def forLoop {σ : Type} (lo hi : Nat) (body : Nat → σ → σ) (s : σ) : σ :=
  (List.range' lo (hi - lo)).foldl (fun acc t => body t acc) s

/-! ## Globals of `MPC.cpp` (lines 9 to 51) -/

section Globals

variable [LinearOrderedField α]

/-- The constant `Lf` (line 22). -/
def Lf : α := 2.67

/-- The constant `ref_cte` (line 25). -/
def ref_cte : α := 0

/-- The constant `ref_epsi` (line 26). -/
def ref_epsi : α := 0

/-- The constant `ref_v` (line 27). -/
def ref_v : α := 100

/-- The constant `w_ref_cte` (line 43). -/
def w_ref_cte : α := 5000

/-- The constant `w_ref_epsi` (line 44). -/
def w_ref_epsi : α := 1000

/-- The constant `w_ref_v` (line 45). -/
def w_ref_v : α := 1

/-- The constant `w_act_delta` (line 47). -/
def w_act_delta : α := 1

/-- The constant `w_act_a` (line 48). -/
def w_act_a : α := 1

/-- The constant `w_dif_delta` (line 50). -/
def w_dif_delta : α := 1000

/-- The constant `w_dif_a` (line 51). -/
def w_dif_a : α := 10

end Globals

/-- The offset `x_start` (line 32). -/
def x_start : Nat := 0

/-- The offset `y_start` (line 33). -/
def y_start (N : Nat) : Nat := x_start + N

/-- The offset `psi_start` (line 34). -/
def psi_start (N : Nat) : Nat := y_start N + N

/-- The offset `v_start` (line 35). -/
def v_start (N : Nat) : Nat := psi_start N + N

/-- The offset `cte_start` (line 36). -/
def cte_start (N : Nat) : Nat := v_start N + N

/-- The offset `epsi_start` (line 37). -/
def epsi_start (N : Nat) : Nat := cte_start N + N

/-- The offset `delta_start` (line 38). -/
def delta_start (N : Nat) : Nat := epsi_start N + N

/-- The offset `a_start` (line 39). -/
def a_start (N : Nat) : Nat := delta_start N + N - 1

/-! ## `FG_eval` (lines 54 to 140) -/

/-- The elementary functions of CppAD that `FG_eval::operator()` calls. -/
structure Trig (α : Type) where
  /-- The function `CppAD::cos`. -/
  cos : α → α
  /-- The function `CppAD::sin`. -/
  sin : α → α
  /-- The function `CppAD::atan`. -/
  atan : α → α

/-- The class `FG_eval`: its only data member is the fitted polynomial. -/
structure FG_eval (α : Type) where
  /-- Fitted polynomial coefficients. -/
  coeffs : List α

section Eval

variable [LinearOrderedField α]

/-- The first cost loop (lines 70 to 74): deviation from the reference values. -/
def FG_eval.cost_ref (N : Nat) (vars : Nat → α) (fg : Nat → α) : Nat → α :=
  forLoop 0 N (fun t fg =>
    let fg := Function.update fg 0 (fg 0 + w_ref_cte * (vars (cte_start N + t) - ref_cte) ^ 2)
    let fg := Function.update fg 0 (fg 0 + w_ref_epsi * (vars (epsi_start N + t) - ref_epsi) ^ 2)
    let fg := Function.update fg 0 (fg 0 + w_ref_v * (vars (v_start N + t) - ref_v) ^ 2)
    fg) fg

/-- The second cost loop (lines 78 to 81): use of the actuators. -/
def FG_eval.cost_act (N : Nat) (vars : Nat → α) (fg : Nat → α) : Nat → α :=
  forLoop 0 (N - 1) (fun t fg =>
    let fg := Function.update fg 0 (fg 0 + w_act_delta * (vars (delta_start N + t)) ^ 2)
    let fg := Function.update fg 0 (fg 0 + w_act_a * (vars (a_start N + t)) ^ 2)
    fg) fg

/-- The third cost loop (lines 85 to 88): gap between sequential actuations. -/
def FG_eval.cost_dif (N : Nat) (vars : Nat → α) (fg : Nat → α) : Nat → α :=
  forLoop 0 (N - 2) (fun t fg =>
    let fg := Function.update fg 0
      (fg 0 + w_dif_delta * (vars (delta_start N + t + 1) - vars (delta_start N + t)) ^ 2)
    let fg := Function.update fg 0
      (fg 0 + w_dif_a * (vars (a_start N + t + 1) - vars (a_start N + t)) ^ 2)
    fg) fg

/-- The step-0 constraint entries (lines 91 to 96). -/
def FG_eval.constraints_init (N : Nat) (vars : Nat → α) (fg : Nat → α) : Nat → α :=
  let fg := Function.update fg (1 + x_start) (vars x_start)
  let fg := Function.update fg (1 + y_start N) (vars (y_start N))
  let fg := Function.update fg (1 + psi_start N) (vars (psi_start N))
  let fg := Function.update fg (1 + v_start N) (vars (v_start N))
  let fg := Function.update fg (1 + cte_start N) (vars (cte_start N))
  let fg := Function.update fg (1 + epsi_start N) (vars (epsi_start N))
  fg

set_option linter.unusedVariables false in
/-- The body of the transition loop (lines 103 to 137) for one `t`. -/
def FG_eval.constraints_step (m : Trig α) (N : Nat) (dt : α) (self : FG_eval α)
    (vars : Nat → α) (t : Nat) (fg : Nat → α) : Nat → α :=
  let x1 := vars (x_start + t)
  let y1 := vars (y_start N + t)
  let psi1 := vars (psi_start N + t)
  let v1 := vars (v_start N + t)
  let cte1 := vars (cte_start N + t)
  let epsi1 := vars (epsi_start N + t)
  let x0 := vars (x_start + t - 1)
  let y0 := vars (y_start N + t - 1)
  let psi0 := vars (psi_start N + t - 1)
  let v0 := vars (v_start N + t - 1)
  let cte0 := vars (cte_start N + t - 1)
  let epsi0 := vars (epsi_start N + t - 1)
  let delta0 := vars (delta_start N + t - 1)
  let a0 := vars (a_start N + t - 1)
  let f0 := self.coeffs.getD 0 0 + self.coeffs.getD 1 0 * x0 +
    self.coeffs.getD 2 0 * x0 * x0 + self.coeffs.getD 3 0 * x0 * x0 * x0
  let psides0 := m.atan
    (self.coeffs.getD 1 0 + 2 * self.coeffs.getD 2 0 * x0 + 3 * self.coeffs.getD 3 0 * x0 * x0)
  let fg := Function.update fg (1 + x_start + t) (x1 - (x0 + v0 * m.cos psi0 * dt))
  let fg := Function.update fg (1 + y_start N + t) (y1 - (y0 + v0 * m.sin psi0 * dt))
  let fg := Function.update fg (1 + psi_start N + t) (psi1 - (psi0 + v0 * delta0 / Lf * dt))
  let fg := Function.update fg (1 + v_start N + t) (v1 - (v0 + a0 * dt))
  let fg := Function.update fg (1 + cte_start N + t)
    (cte1 - ((f0 - y0) + (v0 * m.sin epsi0 * dt)))
  let fg := Function.update fg (1 + epsi_start N + t)
    (epsi1 - ((psi0 - psides0) + v0 * delta0 / Lf * dt))
  fg

/-- The method `FG_eval::operator()` (lines 61 to 139): from the incoming `fg` and
the variable vector `vars` to the outgoing `fg`. -/
def FG_eval.operator (m : Trig α) (N : Nat) (dt : α) (self : FG_eval α)
    (fg vars : Nat → α) : Nat → α :=
  let fg := Function.update fg 0 0
  let fg := FG_eval.cost_ref N vars fg
  let fg := FG_eval.cost_act N vars fg
  let fg := FG_eval.cost_dif N vars fg
  let fg := FG_eval.constraints_init N vars fg
  let fg := forLoop 1 N (FG_eval.constraints_step m N dt self vars) fg
  fg

end Eval

/-- The six slots of `fg` that iteration `t` of the transition loop assigns. -/
def writtenAt (N t j : Nat) : Prop :=
  j = 1 + x_start + t ∨ j = 1 + y_start N + t ∨ j = 1 + psi_start N + t ∨
    j = 1 + v_start N + t ∨ j = 1 + cte_start N + t ∨ j = 1 + epsi_start N + t

/-! ## The objective of `FG_eval::operator()` in rounded arithmetic -/

section RoundedDefs

variable [LinearOrderedField α]

/-- The statements `fg[0] += τ` for the terms `τ` of a list, in order, on the value `v` of
`fg[0]`: each sum is rounded by `fl`. -/
def addTerms (fl : α → α) (terms : List α) (v : α) : α :=
  terms.foldl (fun acc τ => fl (acc + τ)) v

/-- The first cost loop (lines 70 to 74) in rounded arithmetic: `fl` is the rounding of a
real number to a `double`, applied to the result of every subtraction, multiplication
and addition, and `pw x` is what `CppAD::pow(x, 2)` returns. -/
def FG_eval.cost_ref_rounded (fl pw : α → α) (N : Nat) (vars : Nat → α) (fg : Nat → α) :
    Nat → α :=
  forLoop 0 N (fun t fg =>
    let fg := Function.update fg 0
      (fl (fg 0 + fl (w_ref_cte * pw (fl (vars (cte_start N + t) - ref_cte)))))
    let fg := Function.update fg 0
      (fl (fg 0 + fl (w_ref_epsi * pw (fl (vars (epsi_start N + t) - ref_epsi)))))
    let fg := Function.update fg 0
      (fl (fg 0 + fl (w_ref_v * pw (fl (vars (v_start N + t) - ref_v)))))
    fg) fg

/-- The second cost loop (lines 78 to 81) in rounded arithmetic. -/
def FG_eval.cost_act_rounded (fl pw : α → α) (N : Nat) (vars : Nat → α) (fg : Nat → α) :
    Nat → α :=
  forLoop 0 (N - 1) (fun t fg =>
    let fg := Function.update fg 0
      (fl (fg 0 + fl (w_act_delta * pw (vars (delta_start N + t)))))
    let fg := Function.update fg 0
      (fl (fg 0 + fl (w_act_a * pw (vars (a_start N + t)))))
    fg) fg

/-- The third cost loop (lines 85 to 88) in rounded arithmetic. -/
def FG_eval.cost_dif_rounded (fl pw : α → α) (N : Nat) (vars : Nat → α) (fg : Nat → α) :
    Nat → α :=
  forLoop 0 (N - 2) (fun t fg =>
    let fg := Function.update fg 0
      (fl (fg 0 + fl (w_dif_delta
        * pw (fl (vars (delta_start N + t + 1) - vars (delta_start N + t))))))
    let fg := Function.update fg 0
      (fl (fg 0 + fl (w_dif_a
        * pw (fl (vars (a_start N + t + 1) - vars (a_start N + t))))))
    fg) fg

/-- Lines 67 to 88 of `FG_eval::operator()` in rounded arithmetic: `fg` once the
objective `fg[0]` is complete (the later lines assign other slots only). -/
def FG_eval.cost_rounded (fl pw : α → α) (N : Nat) (fg vars : Nat → α) : Nat → α :=
  let fg := Function.update fg 0 0
  let fg := FG_eval.cost_ref_rounded fl pw N vars fg
  let fg := FG_eval.cost_act_rounded fl pw N vars fg
  let fg := FG_eval.cost_dif_rounded fl pw N vars fg
  fg

end RoundedDefs

/-! ## `FG_eval::operator()` with a record of its accesses -/

/-- An execution of `FG_eval::operator()` so far: the content of `fg`, the indices at
which `vars` has been read and the indices of `fg` that have been assigned, both in
program order. -/
structure Traced (α : Type) where
  /-- The content of `fg`. -/
  fg : Nat → α
  /-- The indices at which `vars` has been read. -/
  reads : List Nat
  /-- The indices of `fg` that have been assigned. -/
  writes : List Nat

/-- The statement `fg[i] = e` (also `fg[i] += ..`), where `e` reads `vars` at `rs`. -/
def Traced.assign (s : Traced α) (i : Nat) (e : α) (rs : List Nat) : Traced α :=
  ⟨Function.update s.fg i e, s.reads ++ rs, s.writes ++ [i]⟩

/-- Declarations `AD<double> x = vars[i]`, for the indices `rs`. -/
def Traced.read (s : Traced α) (rs : List Nat) : Traced α :=
  ⟨s.fg, s.reads ++ rs, s.writes⟩

section EvalTraced

variable [LinearOrderedField α]

/-- The first cost loop (lines 70 to 74), recording accesses. -/
def FG_eval.cost_ref_traced (N : Nat) (vars : Nat → α) (s : Traced α) : Traced α :=
  forLoop 0 N (fun t s =>
    let s := s.assign 0 (s.fg 0 + w_ref_cte * (vars (cte_start N + t) - ref_cte) ^ 2)
      [cte_start N + t]
    let s := s.assign 0 (s.fg 0 + w_ref_epsi * (vars (epsi_start N + t) - ref_epsi) ^ 2)
      [epsi_start N + t]
    let s := s.assign 0 (s.fg 0 + w_ref_v * (vars (v_start N + t) - ref_v) ^ 2)
      [v_start N + t]
    s) s

/-- The second cost loop (lines 78 to 81), recording accesses. -/
def FG_eval.cost_act_traced (N : Nat) (vars : Nat → α) (s : Traced α) : Traced α :=
  forLoop 0 (N - 1) (fun t s =>
    let s := s.assign 0 (s.fg 0 + w_act_delta * (vars (delta_start N + t)) ^ 2)
      [delta_start N + t]
    let s := s.assign 0 (s.fg 0 + w_act_a * (vars (a_start N + t)) ^ 2) [a_start N + t]
    s) s

/-- The third cost loop (lines 85 to 88), recording accesses. -/
def FG_eval.cost_dif_traced (N : Nat) (vars : Nat → α) (s : Traced α) : Traced α :=
  forLoop 0 (N - 2) (fun t s =>
    let s := s.assign 0
      (s.fg 0 + w_dif_delta * (vars (delta_start N + t + 1) - vars (delta_start N + t)) ^ 2)
      [delta_start N + t + 1, delta_start N + t]
    let s := s.assign 0
      (s.fg 0 + w_dif_a * (vars (a_start N + t + 1) - vars (a_start N + t)) ^ 2)
      [a_start N + t + 1, a_start N + t]
    s) s

/-- The step-0 constraint entries (lines 91 to 96), recording accesses. -/
def FG_eval.constraints_init_traced (N : Nat) (vars : Nat → α) (s : Traced α) : Traced α :=
  let s := s.assign (1 + x_start) (vars x_start) [x_start]
  let s := s.assign (1 + y_start N) (vars (y_start N)) [y_start N]
  let s := s.assign (1 + psi_start N) (vars (psi_start N)) [psi_start N]
  let s := s.assign (1 + v_start N) (vars (v_start N)) [v_start N]
  let s := s.assign (1 + cte_start N) (vars (cte_start N)) [cte_start N]
  let s := s.assign (1 + epsi_start N) (vars (epsi_start N)) [epsi_start N]
  s

set_option linter.unusedVariables false in
/-- The body of the transition loop (lines 103 to 137) for one `t`, recording accesses:
the fourteen declarations read `vars`, the six assignments use the values read. -/
def FG_eval.constraints_step_traced (m : Trig α) (N : Nat) (dt : α) (self : FG_eval α)
    (vars : Nat → α) (t : Nat) (s : Traced α) : Traced α :=
  let x1 := vars (x_start + t)
  let y1 := vars (y_start N + t)
  let psi1 := vars (psi_start N + t)
  let v1 := vars (v_start N + t)
  let cte1 := vars (cte_start N + t)
  let epsi1 := vars (epsi_start N + t)
  let s := s.read [x_start + t, y_start N + t, psi_start N + t, v_start N + t,
    cte_start N + t, epsi_start N + t]
  let x0 := vars (x_start + t - 1)
  let y0 := vars (y_start N + t - 1)
  let psi0 := vars (psi_start N + t - 1)
  let v0 := vars (v_start N + t - 1)
  let cte0 := vars (cte_start N + t - 1)
  let epsi0 := vars (epsi_start N + t - 1)
  let s := s.read [x_start + t - 1, y_start N + t - 1, psi_start N + t - 1,
    v_start N + t - 1, cte_start N + t - 1, epsi_start N + t - 1]
  let delta0 := vars (delta_start N + t - 1)
  let a0 := vars (a_start N + t - 1)
  let s := s.read [delta_start N + t - 1, a_start N + t - 1]
  let f0 := self.coeffs.getD 0 0 + self.coeffs.getD 1 0 * x0 +
    self.coeffs.getD 2 0 * x0 * x0 + self.coeffs.getD 3 0 * x0 * x0 * x0
  let psides0 := m.atan
    (self.coeffs.getD 1 0 + 2 * self.coeffs.getD 2 0 * x0 + 3 * self.coeffs.getD 3 0 * x0 * x0)
  let s := s.assign (1 + x_start + t) (x1 - (x0 + v0 * m.cos psi0 * dt)) []
  let s := s.assign (1 + y_start N + t) (y1 - (y0 + v0 * m.sin psi0 * dt)) []
  let s := s.assign (1 + psi_start N + t) (psi1 - (psi0 + v0 * delta0 / Lf * dt)) []
  let s := s.assign (1 + v_start N + t) (v1 - (v0 + a0 * dt)) []
  let s := s.assign (1 + cte_start N + t) (cte1 - ((f0 - y0) + (v0 * m.sin epsi0 * dt))) []
  let s := s.assign (1 + epsi_start N + t)
    (epsi1 - ((psi0 - psides0) + v0 * delta0 / Lf * dt)) []
  s

/-- The method `FG_eval::operator()` (lines 61 to 139), recording accesses. -/
def FG_eval.operator_traced (m : Trig α) (N : Nat) (dt : α) (self : FG_eval α)
    (fg vars : Nat → α) : Traced α :=
  let s : Traced α := ⟨fg, [], []⟩
  let s := s.assign 0 0 []
  let s := FG_eval.cost_ref_traced N vars s
  let s := FG_eval.cost_act_traced N vars s
  let s := FG_eval.cost_dif_traced N vars s
  let s := FG_eval.constraints_init_traced N vars s
  let s := forLoop 1 N (FG_eval.constraints_step_traced m N dt self vars) s
  s

end EvalTraced

/-! ## The solver interface of CppAD that `MPC::Solve` uses -/

/-- The enumeration `CppAD::ipopt::solve_result<Dvector>::status_type`. -/
inductive status_type where
  | not_defined
  | success
  | maxiter_exceeded
  | stop_at_tiny_step
  | stop_at_acceptable_point
  | local_infeasibility
  | user_requested_stop
  | feasible_point_found
  | diverging_iterates
  | restoration_failure
  | error_in_step_computation
  | invalid_number_detected
  | too_few_degrees_of_freedom
  | internal_error
  | unknown
  deriving DecidableEq, Repr

/-- The members of `CppAD::ipopt::solve_result<Dvector>` that `MPC::Solve` reads. -/
structure solve_result (α : Type) where
  /-- The member `status`. -/
  status : status_type
  /-- The member `x`: the final iterate of the solver. -/
  x : List α
  /-- The member `obj_value`. -/
  obj_value : α

/-- The evaluator handed to the solver: `fg_eval(fg, vars)` as a function. -/
abbrev Evaluator (α : Type) := (Nat → α) → (Nat → α) → Nat → α

/-- The function `CppAD::ipopt::solve<Dvector, FG_eval>`: options, initial guess, variable
bounds (lower, upper), constraint bounds (lower, upper), evaluator; it returns the solution. -/
abbrev Solver (α : Type) :=
  String → List α → List α → List α → List α → List α → Evaluator α → solve_result α

/-- The construction `Dvector v(n)`: `n` slots whose content is unspecified. -/
def Dvector (junk : Nat → α) (n : Nat) : List α := (List.range n).map junk

/-! ## `MPC` (lines 145 to 275) -/

/-- The class `MPC` (`MPC.h`). -/
structure MPC where
  /-- The member `silent`. -/
  silent : Bool := false

/-- The method `MPC::set_silent` (lines 148 to 150). -/
def MPC.set_silent (_self : MPC) (silent : Bool) : MPC := ⟨silent⟩

/-- Everything `MPC::Solve` has built when it calls the solver (line 249). -/
structure Problem (α : Type) where
  /-- The solver options. -/
  options : String
  /-- The initial value of the independent variables. -/
  vars : List α
  /-- Lower limits for the variables. -/
  vars_lowerbound : List α
  /-- Upper limits for the variables. -/
  vars_upperbound : List α
  /-- Lower limits for the constraints. -/
  constraints_lowerbound : List α
  /-- Upper limits for the constraints. -/
  constraints_upperbound : List α
  /-- The object that computes objective and constraints. -/
  fg_eval : FG_eval α

/-- What a call of `MPC::Solve` produces: the returned vector and what was
written to `std::cout` after the word `Cost`, if anything. -/
structure Outcome (α : Type) where
  /-- The returned `vector<double>`. -/
  results : List α
  /-- The cost that was printed, when `silent` is off. -/
  cout : Option α

section Solve

variable [LinearOrderedField α]

set_option linter.unusedVariables false in
/-- Lines 157 to 243 of `MPC::Solve`: the problem that is handed to the solver.
The vector `junk k` is the unspecified initial content of the `k`-th `Dvector`. -/
def MPC.Solve_problem (junk : Nat → Nat → α) (N : Nat) (M_PI : α)
    (state coeffs : List α) : Problem α :=
  let x := state.getD 0 0
  let y := state.getD 1 0
  let psi := state.getD 2 0
  let v := state.getD 3 0
  let cte := state.getD 4 0
  let epsi := state.getD 5 0
  let n_vars := N * state.length + (N - 1) * 2
  let n_constraints := N * state.length
  let vars := Dvector (junk 0) n_vars
  let vars := forLoop 0 n_vars (fun i vars => vars.set i 0) vars
  let vars_lowerbound := Dvector (junk 1) n_vars
  let vars_upperbound := Dvector (junk 2) n_vars
  let (vars_lowerbound, vars_upperbound) :=
    forLoop 0 (delta_start N) (fun i b => (b.1.set i (-1e10), b.2.set i 1e10))
      (vars_lowerbound, vars_upperbound)
  let (vars_lowerbound, vars_upperbound) :=
    forLoop (delta_start N) (a_start N)
      (fun i b => (b.1.set i (-25 * M_PI / 180), b.2.set i (25 * M_PI / 180)))
      (vars_lowerbound, vars_upperbound)
  let (vars_lowerbound, vars_upperbound) :=
    forLoop (a_start N) n_vars (fun i b => (b.1.set i (-1.0), b.2.set i 1.0))
      (vars_lowerbound, vars_upperbound)
  let constraints_lowerbound := Dvector (junk 3) n_constraints
  let constraints_upperbound := Dvector (junk 4) n_constraints
  let (constraints_lowerbound, constraints_upperbound) :=
    forLoop 0 n_constraints (fun i b => (b.1.set i 0, b.2.set i 0))
      (constraints_lowerbound, constraints_upperbound)
  let constraints_lowerbound := constraints_lowerbound.set x_start x
  let constraints_lowerbound := constraints_lowerbound.set (y_start N) y
  let constraints_lowerbound := constraints_lowerbound.set (psi_start N) psi
  let constraints_lowerbound := constraints_lowerbound.set (v_start N) v
  let constraints_lowerbound := constraints_lowerbound.set (cte_start N) cte
  let constraints_lowerbound := constraints_lowerbound.set (epsi_start N) epsi
  let constraints_upperbound := constraints_upperbound.set x_start x
  let constraints_upperbound := constraints_upperbound.set (y_start N) y
  let constraints_upperbound := constraints_upperbound.set (psi_start N) psi
  let constraints_upperbound := constraints_upperbound.set (v_start N) v
  let constraints_upperbound := constraints_upperbound.set (cte_start N) cte
  let constraints_upperbound := constraints_upperbound.set (epsi_start N) epsi
  let fg_eval : FG_eval α := ⟨coeffs⟩
  let options := ""
  let options := options ++ "Integer print_level  0\n"
  let options := options ++ "Sparse  true        forward\n"
  let options := options ++ "Sparse  true        reverse\n"
  let options := options ++ "Numeric max_cpu_time          0.5\n"
  ⟨options, vars, vars_lowerbound, vars_upperbound,
    constraints_lowerbound, constraints_upperbound, fg_eval⟩

set_option linter.unusedVariables false in
/-- The method `MPC::Solve` (lines 152 to 275), with the solver `solve` as a parameter. -/
def MPC.Solve (self : MPC) (solve : Solver α) (m : Trig α) (junk : Nat → Nat → α)
    (N : Nat) (dt : α) (M_PI : α) (state coeffs : List α) : Outcome α :=
  let ok := true
  let p := MPC.Solve_problem junk N M_PI state coeffs
  let solution := solve p.options p.vars p.vars_lowerbound p.vars_upperbound
    p.constraints_lowerbound p.constraints_upperbound (p.fg_eval.operator m N dt)
  let ok := ok && decide (solution.status = status_type.success)
  let cout := if !self.silent then some solution.obj_value else none
  let results : List α := []
  let results := results ++ [solution.x.getD (delta_start N) 0]
  let results := results ++ [solution.x.getD (a_start N) 0]
  let results := forLoop 0 (N - 1) (fun i results =>
    let results := results ++ [solution.x.getD (x_start + i + 1) 0]
    let results := results ++ [solution.x.getD (y_start N + i + 1) 0]
    results) results
  ⟨results, cout⟩

/-- The solution that the solver hands back inside `MPC::Solve`. -/
def MPC.Solve_solution (solve : Solver α) (m : Trig α) (junk : Nat → Nat → α)
    (N : Nat) (dt : α) (M_PI : α) (state coeffs : List α) : solve_result α :=
  solve (MPC.Solve_problem junk N M_PI state coeffs).options
    (MPC.Solve_problem junk N M_PI state coeffs).vars
    (MPC.Solve_problem junk N M_PI state coeffs).vars_lowerbound
    (MPC.Solve_problem junk N M_PI state coeffs).vars_upperbound
    (MPC.Solve_problem junk N M_PI state coeffs).constraints_lowerbound
    (MPC.Solve_problem junk N M_PI state coeffs).constraints_upperbound
    ((MPC.Solve_problem junk N M_PI state coeffs).fg_eval.operator m N dt)

end Solve

/-! ## The data model of the specification -/

/-- The six scalar fields of a State. -/
structure State (α : Type) where
  /-- Position, first coordinate. -/
  x : α
  /-- Position, second coordinate. -/
  y : α
  /-- Heading. -/
  psi : α
  /-- Speed. -/
  v : α
  /-- Cross-track error. -/
  cte : α
  /-- Heading error. -/
  epsi : α

/-- The two scalar fields of an Actuation. -/
structure Actuation (α : Type) where
  /-- Steering angle. -/
  delta : α
  /-- Acceleration. -/
  a : α

/-- The State that a flat variable vector declares for step `t`: field number `k`
of step `t` sits at index `k * N + t`. -/
def declared_state (N : Nat) (vars : Nat → α) (t : Nat) : State α :=
  ⟨vars t, vars (N + t), vars (2 * N + t), vars (3 * N + t), vars (4 * N + t),
    vars (5 * N + t)⟩

/-- The Actuation that a flat variable vector declares for step `t`: steering at
index `6 * N + t`, acceleration at index `7 * N - 1 + t`. -/
def declared_actuation (N : Nat) (vars : Nat → α) (t : Nat) : Actuation α :=
  ⟨vars (6 * N + t), vars (7 * N - 1 + t)⟩

section Model

variable [LinearOrderedField α]

/-- The Vehicle Model as the specification words it (section 4.1), for the
reference path with coefficients `c0 c1 c2 c3`. -/
def vehicleModel (m : Trig α) (dt lf c0 c1 c2 c3 : α) (s : State α) (u : Actuation α) :
    State α :=
  let f := c0 + c1 * s.x + c2 * s.x ^ 2 + c3 * s.x ^ 3
  let psi_des := m.atan (c1 + 2 * c2 * s.x + 3 * c3 * s.x ^ 2)
  { x := s.x + s.v * m.cos s.psi * dt
    y := s.y + s.v * m.sin s.psi * dt
    psi := s.psi + (s.v / lf) * u.delta * dt
    v := s.v + u.a * dt
    cte := (f - s.y) + s.v * m.sin s.epsi * dt
    epsi := (s.psi - psi_des) + (s.v / lf) * u.delta * dt }

/-- The Vehicle Model prediction for step `t`: the model applied to the state and the
actuation that the vector declares for step `t - 1`, along the path `coeffs`. -/
def predicted_state (m : Trig α) (N : Nat) (dt : α) (coeffs : List α) (vars : Nat → α)
    (t : Nat) : State α :=
  vehicleModel m dt Lf (coeffs.getD 0 0) (coeffs.getD 1 0) (coeffs.getD 2 0)
    (coeffs.getD 3 0) (declared_state N vars (t - 1)) (declared_actuation N vars (t - 1))

end Model

/-- Where field number `k` of the layout starts in the variable vector: the six state
fields, then steering, then acceleration. -/
def field_start (N : Nat) : Nat → Nat
  | 0 => x_start
  | 1 => y_start N
  | 2 => psi_start N
  | 3 => v_start N
  | 4 => cte_start N
  | 5 => epsi_start N
  | 6 => delta_start N
  | _ => a_start N

/-- How many slots field number `k` takes: `N` steps for a state field, `N - 1` for
steering and for acceleration. -/
def field_size (N : Nat) : Nat → Nat
  | 6 => N - 1
  | 7 => N - 1
  | _ => N

section Feasible

variable [LinearOrderedField α]

/-- The current State that `MPC::Solve` receives as a vector of six entries. -/
def State.ofVector (state : List α) : State α :=
  ⟨state.getD 0 0, state.getD 1 0, state.getD 2 0, state.getD 3 0, state.getD 4 0,
    state.getD 5 0⟩

/-- A variable vector satisfies the constraint bounds of a problem, the way the solver
reads them: at every constraint index `i`, the entry `fg[1 + i]` that the evaluator
computes for the vector lies between the lower and the upper bound number `i`. -/
def satisfies_constraints (m : Trig α) (N : Nat) (dt : α) (p : Problem α)
    (fg vars : Nat → α) : Prop :=
  ∀ i, i < p.constraints_lowerbound.length →
    p.constraints_lowerbound.getD i 0 ≤ p.fg_eval.operator m N dt fg vars (1 + i)
      ∧ p.fg_eval.operator m N dt fg vars (1 + i) ≤ p.constraints_upperbound.getD i 0

end Feasible

/-- The indices of `fg` assigned while the objective is accumulated: all are `0`. -/
def cost_writes (N : Nat) : List Nat :=
  [0] ++ ((List.range' 0 (N - 0)).flatMap (fun _ => [0, 0, 0])
    ++ ((List.range' 0 (N - 1 - 0)).flatMap (fun _ => [0, 0])
    ++ (List.range' 0 (N - 2 - 0)).flatMap (fun _ => [0, 0])))

/-- The indices of `fg` assigned as constraint entries: step `0`, then the iterations of
the transition loop. -/
def constraint_writes (N : Nat) : List Nat :=
  [1 + x_start, 1 + y_start N, 1 + psi_start N, 1 + v_start N, 1 + cte_start N,
      1 + epsi_start N]
    ++ (List.range' 1 (N - 1)).flatMap
      (fun t => [1 + x_start + t, 1 + y_start N + t, 1 + psi_start N + t,
        1 + v_start N + t, 1 + cte_start N + t, 1 + epsi_start N + t])

/-! ## Concrete inputs used to evaluate the definitions -/

/-- The value of `M_PI` as a `double`, which is a rational number. -/
def M_PI_double : ℚ := 884279719003555 / 281474976710656

/-- Truncated power series over the rationals, standing in for `cos`, `sin`, `atan`
where a definition is evaluated; they take the values `1`, `0`, `0` at `0`. -/
def trigQ : Trig ℚ := ⟨fun x => 1 - x ^ 2 / 2, fun x => x, fun x => x⟩

/-- A solver that stops at its iteration limit: it reports `maxiter_exceeded` and hands
back the iterate `x[i] = i / 1000` with the objective at that iterate. -/
def stalledSolver : Solver ℚ := fun _ vars _ _ _ _ fg_eval =>
  ⟨status_type.maxiter_exceeded, (List.range vars.length).map (fun (i : Nat) => (i : ℚ) / 1000),
    fg_eval (fun _ => 0) (fun (i : Nat) => (i : ℚ) / 1000) 0⟩

/-- A solver that reports `success` with the iterate `x[i] = i`. -/
def rampSolver : Solver ℚ := fun _ vars _ _ _ _ _ =>
  ⟨status_type.success, (List.range vars.length).map (fun (i : Nat) => (i : ℚ)), 0⟩

/-- A variable vector for `N = 2` that declares the state `(0, 0, 0, 10, 0, 0)` at step
`0` and `(1, 0, 0, 10, 0, 0)` at step `1`, with both actuations `0`. -/
def straightVars [LinearOrderedField α] : Nat → α :=
  fun i => if i = 1 then 1 else if i = 6 ∨ i = 7 then 10 else 0

/-- Rounding to a `double` as far as underflow goes: a result of magnitude at most
`2 ^ (-1075)`, half the smallest positive `double`, becomes `0`; every other result is
kept as it is. -/
def roundUnderflow (q : ℚ) : ℚ := if |q| ≤ 1 / 2 ^ 1075 then 0 else q

/-- The function `CppAD::pow(x, 2)` as far as underflow goes: the square, rounded. -/
def powUnderflow (x : ℚ) : ℚ := roundUnderflow (x ^ 2)

/-- A variable vector for `N = 10` on the reference (`v_t = 100`, everything else `0`)
except for `cte_0 = 2 ^ (-665)`, a `double` whose square `2 ^ (-1330)` underflows. Every
number that the cost loops compute from this vector is a `double`, so underflow is the
only rounding that occurs. -/
def tinyCteVars : Nat → ℚ :=
  fun i => if i = 40 then 1 / 2 ^ 665 else if 30 ≤ i ∧ i < 40 then 100 else 0

/-! ## The offsets in closed form -/

theorem y_start_eq (N : Nat) : y_start N = N := by simp [y_start, x_start]

theorem psi_start_eq (N : Nat) : psi_start N = 2 * N := by
  simp only [psi_start, y_start_eq]; omega

theorem v_start_eq (N : Nat) : v_start N = 3 * N := by
  simp only [v_start, psi_start_eq]; omega

theorem cte_start_eq (N : Nat) : cte_start N = 4 * N := by
  simp only [cte_start, v_start_eq]; omega

theorem epsi_start_eq (N : Nat) : epsi_start N = 5 * N := by
  simp only [epsi_start, cte_start_eq]; omega

theorem delta_start_eq (N : Nat) : delta_start N = 6 * N := by
  simp only [delta_start, epsi_start_eq]; omega

theorem a_start_eq (N : Nat) : a_start N = 7 * N - 1 := by
  simp only [a_start, delta_start_eq]; omega

/-- Every index below `8 N - 2` lies in exactly one of the eight field ranges. -/
theorem field_partition (N i : Nat) (hN : 1 ≤ N) (hi : i < 8 * N - 2) :
    ∃! k, k < 8 ∧ field_start N k ≤ i ∧ i < field_start N k + field_size N k := by
  have huniq : ∀ k, k < 8 ∧ field_start N k ≤ i ∧ i < field_start N k + field_size N k →
      ∀ k2, k2 < 8 ∧ field_start N k2 ≤ i ∧ i < field_start N k2 + field_size N k2 →
      k2 = k := by
    rintro k ⟨hk, h1, h2⟩ k2 ⟨hk2, h3, h4⟩
    interval_cases k <;> interval_cases k2 <;>
      simp only [field_start, field_size, y_start_eq, psi_start_eq, v_start_eq, cte_start_eq,
        epsi_start_eq, delta_start_eq, a_start_eq, x_start] at h1 h2 h3 h4 <;> omega
  have hex : ∃ k, k < 8 ∧ field_start N k ≤ i ∧ i < field_start N k + field_size N k := by
    by_cases h0 : i < N
    · exact ⟨0, by decide, by simp only [field_start, field_size, x_start]; omega⟩
    by_cases h1 : i < 2 * N
    · exact ⟨1, by decide, by simp only [field_start, field_size, y_start_eq]; omega⟩
    by_cases h2 : i < 3 * N
    · exact ⟨2, by decide, by simp only [field_start, field_size, psi_start_eq]; omega⟩
    by_cases h3 : i < 4 * N
    · exact ⟨3, by decide, by simp only [field_start, field_size, v_start_eq]; omega⟩
    by_cases h4 : i < 5 * N
    · exact ⟨4, by decide, by simp only [field_start, field_size, cte_start_eq]; omega⟩
    by_cases h5 : i < 6 * N
    · exact ⟨5, by decide, by simp only [field_start, field_size, epsi_start_eq]; omega⟩
    by_cases h6 : i < 7 * N - 1
    · exact ⟨6, by decide, by simp only [field_start, field_size, delta_start_eq]; omega⟩
    · exact ⟨7, by decide, by simp only [field_start, field_size, a_start_eq]; omega⟩
  obtain ⟨k, hk⟩ := hex
  exact ⟨k, hk, fun k2 hk2 => huniq k hk k2 hk2⟩

/-! ## Loop lemmas -/

theorem forLoop_of_le {σ : Type} (lo hi : Nat) (body : Nat → σ → σ) (s : σ) (h : hi ≤ lo) :
    forLoop lo hi body s = s := by
  simp [forLoop, Nat.sub_eq_zero_of_le h]

theorem forLoop_succ {σ : Type} (lo hi : Nat) (body : Nat → σ → σ) (s : σ) (h : lo ≤ hi) :
    forLoop lo (hi + 1) body s = body hi (forLoop lo hi body s) := by
  have e : hi + 1 - lo = (hi - lo) + 1 := by omega
  have e2 : lo + (hi - lo) = hi := by omega
  simp [forLoop, e, List.range'_1_concat, List.foldl_append, e2]

theorem forLoop_prod {σ τ : Type} (lo hi : Nat) (f : Nat → σ → σ) (g : Nat → τ → τ)
    (a : σ) (b : τ) :
    forLoop lo hi (fun i p => (f i p.1, g i p.2)) (a, b)
      = (forLoop lo hi f a, forLoop lo hi g b) := by
  rcases Nat.lt_or_ge lo hi with h | h
  · obtain ⟨k, rfl⟩ : ∃ k, hi = lo + k := ⟨hi - lo, by omega⟩
    clear h
    induction k with
    | zero => simp [forLoop_of_le]
    | succ k ih =>
      rw [← Nat.add_assoc, forLoop_succ _ _ _ _ (by omega), forLoop_succ _ _ _ _ (by omega),
        forLoop_succ _ _ _ _ (by omega), ih]
  · simp [forLoop_of_le _ _ _ _ h]

/-- A loop that assigns to two vectors side by side is two loops. -/
theorem forLoop_set_pair (lo hi : Nat) (c d : α) (a b : List α) :
    forLoop lo hi (fun i p => (p.1.set i c, p.2.set i d)) (a, b)
      = (forLoop lo hi (fun i w => w.set i c) a, forLoop lo hi (fun i w => w.set i d) b) :=
  forLoop_prod lo hi (fun i w => w.set i c) (fun i w => w.set i d) a b

/-- A loop that only adds `g t` to slot `0` adds the sum of the `g t`. -/
theorem forLoop_accumulate [LinearOrderedField α] (g : Nat → α) (n : Nat) (fg : Nat → α) :
    forLoop 0 n (fun t fg => Function.update fg 0 (fg 0 + g t)) fg
      = Function.update fg 0 (fg 0 + ∑ t in Finset.range n, g t) := by
  induction n with
  | zero => simp [forLoop_of_le]
  | succ n ih =>
    rw [forLoop_succ _ _ _ _ (Nat.zero_le n), ih, Finset.sum_range_succ]
    simp [add_assoc]

/-- A slot that no iteration changes keeps its content. -/
theorem forLoop_frame (lo hi : Nat) (body : Nat → (Nat → α) → Nat → α) (fg : Nat → α)
    (j : Nat) (h : ∀ t, lo ≤ t → t < hi → ∀ g, body t g j = g j) :
    forLoop lo hi body fg j = fg j := by
  rcases Nat.lt_or_ge lo hi with hlt | hge
  · obtain ⟨k, rfl⟩ : ∃ k, hi = lo + k := ⟨hi - lo, by omega⟩
    clear hlt
    induction k with
    | zero => simp [forLoop_of_le]
    | succ k ih =>
      rw [← Nat.add_assoc, forLoop_succ _ _ _ _ (by omega), h (lo + k) (by omega) (by omega)]
      exact ih (fun t h1 h2 g => h t h1 (by omega) g)
  · rw [forLoop_of_le _ _ _ _ hge]

/-- A loop of assignments `v[i] = c` keeps the length of `v`. -/
theorem forLoop_set_length (lo hi : Nat) (c : α) (v : List α) :
    (forLoop lo hi (fun i w => w.set i c) v).length = v.length := by
  rcases Nat.lt_or_ge lo hi with hlt | hge
  · obtain ⟨k, rfl⟩ : ∃ k, hi = lo + k := ⟨hi - lo, by omega⟩
    clear hlt
    induction k with
    | zero => simp [forLoop_of_le]
    | succ k ih => rw [← Nat.add_assoc, forLoop_succ _ _ _ _ (by omega), List.length_set, ih]
  · rw [forLoop_of_le _ _ _ _ hge]

/-- A loop of assignments `v[i] = c` for `lo ≤ i < hi` puts `c` in exactly those slots. -/
theorem forLoop_set_getElem? (lo hi : Nat) (c : α) (v : List α) (j : Nat) :
    (forLoop lo hi (fun i w => w.set i c) v)[j]?
      = if lo ≤ j ∧ j < hi ∧ j < v.length then some c else v[j]? := by
  rcases Nat.lt_or_ge lo hi with hlt | hge
  · obtain ⟨k, rfl⟩ : ∃ k, hi = lo + k := ⟨hi - lo, by omega⟩
    clear hlt
    induction k with
    | zero =>
      rw [forLoop_of_le _ _ _ _ (by omega), if_neg (by omega)]
    | succ k ih =>
      rw [← Nat.add_assoc, forLoop_succ _ _ _ _ (by omega), List.getElem?_set, ih,
        forLoop_set_length]
      by_cases h1 : lo + k = j
      · subst h1
        by_cases h2 : lo + k < v.length
        · rw [if_pos rfl, if_pos h2, if_pos (by omega)]
        · rw [if_pos rfl, if_neg h2, if_neg (by omega)]
          exact (List.getElem?_eq_none (by omega)).symm
      · rw [if_neg h1]
        by_cases h3 : lo ≤ j ∧ j < lo + k ∧ j < v.length
        · rw [if_pos h3, if_pos (by omega)]
        · rw [if_neg h3, if_neg (by omega)]
  · rw [forLoop_of_le _ _ _ _ hge, if_neg (by omega)]

theorem getD_map_range (f : Nat → α) (n i : Nat) (d : α) (h : i < n) :
    ((List.range n).map f).getD i d = f i := by
  rw [List.getD_eq_getElem?_getD, List.getElem?_map, List.getElem?_range h]
  rfl

theorem Dvector_length (junk : Nat → α) (n : Nat) : (Dvector junk n).length = n := by
  simp [Dvector]

/-! ## The objective `fg[0]` -/

section Cost

variable [LinearOrderedField α]

theorem cost_ref_eq (N : Nat) (vars fg : Nat → α) :
    FG_eval.cost_ref N vars fg = Function.update fg 0 (fg 0 + ∑ t in Finset.range N,
      (w_ref_cte * (vars (cte_start N + t) - ref_cte) ^ 2
        + w_ref_epsi * (vars (epsi_start N + t) - ref_epsi) ^ 2
        + w_ref_v * (vars (v_start N + t) - ref_v) ^ 2)) := by
  rw [← forLoop_accumulate]
  unfold FG_eval.cost_ref
  congr 1
  funext t g
  simp [add_assoc]

theorem cost_act_eq (N : Nat) (vars fg : Nat → α) :
    FG_eval.cost_act N vars fg = Function.update fg 0 (fg 0 + ∑ t in Finset.range (N - 1),
      (w_act_delta * (vars (delta_start N + t)) ^ 2
        + w_act_a * (vars (a_start N + t)) ^ 2)) := by
  rw [← forLoop_accumulate]
  unfold FG_eval.cost_act
  congr 1
  funext t g
  simp [add_assoc]

theorem cost_dif_eq (N : Nat) (vars fg : Nat → α) :
    FG_eval.cost_dif N vars fg = Function.update fg 0 (fg 0 + ∑ t in Finset.range (N - 2),
      (w_dif_delta * (vars (delta_start N + t + 1) - vars (delta_start N + t)) ^ 2
        + w_dif_a * (vars (a_start N + t + 1) - vars (a_start N + t)) ^ 2)) := by
  rw [← forLoop_accumulate]
  unfold FG_eval.cost_dif
  congr 1
  funext t g
  simp [add_assoc]

omit [LinearOrderedField α] in
theorem constraints_init_zero (N : Nat) (vars fg : Nat → α) :
    FG_eval.constraints_init N vars fg 0 = fg 0 := by
  simp only [FG_eval.constraints_init]
  iterate 6 rw [Function.update_noteq (by omega)]

theorem constraints_step_zero (m : Trig α) (N : Nat) (dt : α) (c : FG_eval α)
    (vars : Nat → α) (t : Nat) (fg : Nat → α) :
    FG_eval.constraints_step m N dt c vars t fg 0 = fg 0 := by
  simp only [FG_eval.constraints_step]
  iterate 6 rw [Function.update_noteq (by omega)]

/-- The objective in the order in which the source accumulates it. -/
theorem operator_zero (m : Trig α) (N : Nat) (dt : α) (c : FG_eval α) (fg vars : Nat → α) :
    c.operator m N dt fg vars 0 =
      ∑ t in Finset.range N,
        (w_ref_cte * (vars (cte_start N + t) - ref_cte) ^ 2
          + w_ref_epsi * (vars (epsi_start N + t) - ref_epsi) ^ 2
          + w_ref_v * (vars (v_start N + t) - ref_v) ^ 2)
      + ∑ t in Finset.range (N - 1),
        (w_act_delta * (vars (delta_start N + t)) ^ 2
          + w_act_a * (vars (a_start N + t)) ^ 2)
      + ∑ t in Finset.range (N - 2),
        (w_dif_delta * (vars (delta_start N + t + 1) - vars (delta_start N + t)) ^ 2
          + w_dif_a * (vars (a_start N + t + 1) - vars (a_start N + t)) ^ 2) := by
  simp only [FG_eval.operator]
  rw [forLoop_frame _ _ _ _ _ (fun t _ _ g => constraints_step_zero m N dt c vars t g),
    constraints_init_zero, cost_dif_eq, cost_act_eq, cost_ref_eq]
  simp

/-- The objective as seven weighted sums over the declared trajectory. -/
theorem operator_cost (m : Trig α) (N : Nat) (dt : α) (c : FG_eval α) (fg vars : Nat → α) :
    c.operator m N dt fg vars 0 =
      5000 * ∑ t in Finset.range N, ((declared_state N vars t).cte - 0) ^ 2
      + 1000 * ∑ t in Finset.range N, ((declared_state N vars t).epsi - 0) ^ 2
      + 1 * ∑ t in Finset.range N, ((declared_state N vars t).v - 100) ^ 2
      + 1 * ∑ t in Finset.range (N - 1), ((declared_actuation N vars t).delta) ^ 2
      + 1 * ∑ t in Finset.range (N - 1), ((declared_actuation N vars t).a) ^ 2
      + 1000 * ∑ t in Finset.range (N - 2),
          ((declared_actuation N vars (t + 1)).delta - (declared_actuation N vars t).delta) ^ 2
      + 10 * ∑ t in Finset.range (N - 2),
          ((declared_actuation N vars (t + 1)).a - (declared_actuation N vars t).a) ^ 2 := by
  rw [operator_zero]
  simp only [declared_state, declared_actuation, cte_start_eq, epsi_start_eq, v_start_eq,
    delta_start_eq, a_start_eq, Finset.sum_add_distrib, Finset.mul_sum, add_assoc,
    w_ref_cte, w_ref_epsi, w_ref_v, w_act_delta, w_act_a, w_dif_delta, w_dif_a,
    ref_cte, ref_epsi, ref_v]

theorem sum_sq_nonneg (n : Nat) (f : Nat → α) : 0 ≤ ∑ t in Finset.range n, (f t) ^ 2 :=
  Finset.sum_nonneg (fun t _ => sq_nonneg (f t))

theorem sum_sq_eq_zero_iff (n : Nat) (f : Nat → α) :
    ∑ t in Finset.range n, (f t) ^ 2 = 0 ↔ ∀ t, t < n → f t = 0 := by
  rw [Finset.sum_eq_zero_iff_of_nonneg (fun t _ => sq_nonneg (f t))]
  constructor
  · intro h t ht
    exact pow_eq_zero_iff (two_ne_zero) |>.1 (h t (Finset.mem_range.2 ht))
  · intro h t ht
    rw [h t (Finset.mem_range.1 ht)]
    simp

theorem operator_cost_nonneg (m : Trig α) (N : Nat) (dt : α) (c : FG_eval α)
    (fg vars : Nat → α) : 0 ≤ c.operator m N dt fg vars 0 := by
  rw [operator_cost]
  have h := fun (n : Nat) (f : Nat → α) => sum_sq_nonneg n f
  have h1 := h N (fun t => (declared_state N vars t).cte - 0)
  have h2 := h N (fun t => (declared_state N vars t).epsi - 0)
  have h3 := h N (fun t => (declared_state N vars t).v - 100)
  have h4 := h (N - 1) (fun t => (declared_actuation N vars t).delta)
  have h5 := h (N - 1) (fun t => (declared_actuation N vars t).a)
  have h6 := h (N - 2) (fun t =>
    (declared_actuation N vars (t + 1)).delta - (declared_actuation N vars t).delta)
  have h7 := h (N - 2) (fun t =>
    (declared_actuation N vars (t + 1)).a - (declared_actuation N vars t).a)
  simp only at h1 h2 h3 h4 h5 h6 h7
  linarith

/-- The objective vanishes exactly on the trajectories that sit on the reference with
all actuators at rest. -/
theorem operator_cost_eq_zero_iff (m : Trig α) (N : Nat) (dt : α) (c : FG_eval α)
    (fg vars : Nat → α) :
    c.operator m N dt fg vars 0 = 0 ↔
      (∀ t, t < N → (declared_state N vars t).cte = 0 ∧ (declared_state N vars t).epsi = 0
          ∧ (declared_state N vars t).v = ref_v)
      ∧ (∀ t, t < N - 1 → (declared_actuation N vars t).delta = 0
          ∧ (declared_actuation N vars t).a = 0) := by
  rw [operator_cost]
  have h := fun (n : Nat) (f : Nat → α) => sum_sq_nonneg n f
  have h1 := h N (fun t => (declared_state N vars t).cte - 0)
  have h2 := h N (fun t => (declared_state N vars t).epsi - 0)
  have h3 := h N (fun t => (declared_state N vars t).v - 100)
  have h4 := h (N - 1) (fun t => (declared_actuation N vars t).delta)
  have h5 := h (N - 1) (fun t => (declared_actuation N vars t).a)
  have h6 := h (N - 2) (fun t =>
    (declared_actuation N vars (t + 1)).delta - (declared_actuation N vars t).delta)
  have h7 := h (N - 2) (fun t =>
    (declared_actuation N vars (t + 1)).a - (declared_actuation N vars t).a)
  simp only at h1 h2 h3 h4 h5 h6 h7
  constructor
  · intro h0
    have e1 : ∑ t in Finset.range N, ((declared_state N vars t).cte - 0) ^ 2 = 0 := by linarith
    have e2 : ∑ t in Finset.range N, ((declared_state N vars t).epsi - 0) ^ 2 = 0 := by
      linarith
    have e3 : ∑ t in Finset.range N, ((declared_state N vars t).v - 100) ^ 2 = 0 := by
      linarith
    have e4 : ∑ t in Finset.range (N - 1), ((declared_actuation N vars t).delta) ^ 2 = 0 := by
      linarith
    have e5 : ∑ t in Finset.range (N - 1), ((declared_actuation N vars t).a) ^ 2 = 0 := by
      linarith
    rw [sum_sq_eq_zero_iff] at e1 e2 e3 e4 e5
    refine ⟨fun t ht => ⟨?_, ?_, ?_⟩, fun t ht => ⟨e4 t ht, e5 t ht⟩⟩
    · simpa using e1 t ht
    · simpa using e2 t ht
    · have := e3 t ht
      simp only [ref_v]
      linarith
  · rintro ⟨hs, ha⟩
    have e1 : ∑ t in Finset.range N, ((declared_state N vars t).cte - 0) ^ 2 = 0 :=
      (sum_sq_eq_zero_iff N _).2 (fun t ht => by rw [(hs t ht).1]; simp)
    have e2 : ∑ t in Finset.range N, ((declared_state N vars t).epsi - 0) ^ 2 = 0 :=
      (sum_sq_eq_zero_iff N _).2 (fun t ht => by rw [(hs t ht).2.1]; simp)
    have e3 : ∑ t in Finset.range N, ((declared_state N vars t).v - 100) ^ 2 = 0 :=
      (sum_sq_eq_zero_iff N _).2 (fun t ht => by rw [(hs t ht).2.2]; simp [ref_v])
    have e4 : ∑ t in Finset.range (N - 1), ((declared_actuation N vars t).delta) ^ 2 = 0 :=
      (sum_sq_eq_zero_iff (N - 1) _).2 (fun t ht => (ha t ht).1)
    have e5 : ∑ t in Finset.range (N - 1), ((declared_actuation N vars t).a) ^ 2 = 0 :=
      (sum_sq_eq_zero_iff (N - 1) _).2 (fun t ht => (ha t ht).2)
    have e6 : ∑ t in Finset.range (N - 2),
        ((declared_actuation N vars (t + 1)).delta - (declared_actuation N vars t).delta) ^ 2
          = 0 :=
      (sum_sq_eq_zero_iff (N - 2) _).2 (fun t ht => by
        rw [(ha t (by omega)).1, (ha (t + 1) (by omega)).1]; simp)
    have e7 : ∑ t in Finset.range (N - 2),
        ((declared_actuation N vars (t + 1)).a - (declared_actuation N vars t).a) ^ 2 = 0 :=
      (sum_sq_eq_zero_iff (N - 2) _).2 (fun t ht => by
        rw [(ha t (by omega)).2, (ha (t + 1) (by omega)).2]; simp)
    rw [e1, e2, e3, e4, e5, e6, e7]
    simp

end Cost

/-! ## The objective in rounded arithmetic -/

section Rounded

variable [LinearOrderedField α]

theorem addTerms_spec (fl : α → α) (hmono : ∀ x y, x ≤ y → fl x ≤ fl y)
    (hidem : ∀ x, fl (fl x) = fl x) (terms : List α)
    (hterms : ∀ τ, τ ∈ terms → 0 ≤ τ ∧ fl τ = τ) (v : α) (hv : 0 ≤ v) (hfix : fl v = v) :
    0 ≤ addTerms fl terms v ∧ fl (addTerms fl terms v) = addTerms fl terms v
      ∧ v ≤ addTerms fl terms v ∧ ∀ τ, τ ∈ terms → τ ≤ addTerms fl terms v := by
  induction terms generalizing v with
  | nil => exact ⟨hv, hfix, le_refl v, fun τ h => absurd h (List.not_mem_nil τ)⟩
  | cons a l ih =>
    obtain ⟨ha0, hafix⟩ := hterms a (List.mem_cons_self a l)
    have h1 : v ≤ fl (v + a) := by
      have := hmono v (v + a) (by linarith)
      rwa [hfix] at this
    have h2 : a ≤ fl (v + a) := by
      have := hmono a (v + a) (by linarith)
      rwa [hafix] at this
    obtain ⟨i1, i2, i3, i4⟩ := ih (fun τ h => hterms τ (List.mem_cons_of_mem a h))
      (fl (v + a)) (le_trans hv h1) (hidem (v + a))
    refine ⟨i1, i2, le_trans h1 i3, fun τ h => ?_⟩
    rcases List.mem_cons.1 h with rfl | h
    · exact le_trans h2 i3
    · exact i4 τ h

theorem addTerms_zero (fl : α → α) (h0 : fl 0 = 0) (terms : List α)
    (hterms : ∀ τ, τ ∈ terms → τ = 0) : addTerms fl terms 0 = 0 := by
  induction terms with
  | nil => rfl
  | cons a l ih =>
    have ha := hterms a (List.mem_cons_self a l)
    subst ha
    simp only [addTerms, List.foldl_cons, add_zero, h0]
    exact ih (fun τ h => hterms τ (List.mem_cons_of_mem 0 h))

/-- A loop of rounded additions to `fg[0]`: the sum stays non-negative, is a fixed point
of the rounding, never decreases and dominates every term added. -/
theorem forLoop_addTerms_spec (fl : α → α) (hmono : ∀ x y, x ≤ y → fl x ≤ fl y)
    (hidem : ∀ x, fl (fl x) = fl x) (terms : Nat → List α) (n : Nat)
    (hterms : ∀ t, t < n → ∀ τ, τ ∈ terms t → 0 ≤ τ ∧ fl τ = τ) (fg : Nat → α)
    (hv : 0 ≤ fg 0) (hfix : fl (fg 0) = fg 0) :
    0 ≤ forLoop 0 n (fun t g => Function.update g 0 (addTerms fl (terms t) (g 0))) fg 0
      ∧ fl (forLoop 0 n (fun t g => Function.update g 0 (addTerms fl (terms t) (g 0))) fg 0)
        = forLoop 0 n (fun t g => Function.update g 0 (addTerms fl (terms t) (g 0))) fg 0
      ∧ fg 0 ≤ forLoop 0 n (fun t g => Function.update g 0 (addTerms fl (terms t) (g 0))) fg 0
      ∧ ∀ t, t < n → ∀ τ, τ ∈ terms t →
          τ ≤ forLoop 0 n (fun t g => Function.update g 0 (addTerms fl (terms t) (g 0))) fg 0 := by
  induction n with
  | zero =>
    rw [forLoop_of_le _ _ _ _ (le_refl 0)]
    exact ⟨hv, hfix, le_refl _, fun t ht => absurd ht (Nat.not_lt_zero t)⟩
  | succ n ih =>
    obtain ⟨i1, i2, i3, i4⟩ := ih (fun t ht => hterms t (by omega))
    rw [forLoop_succ _ _ _ _ (Nat.zero_le n)]
    simp only [Function.update_same]
    obtain ⟨j1, j2, j3, j4⟩ := addTerms_spec fl hmono hidem (terms n)
      (hterms n (by omega)) _ i1 i2
    refine ⟨j1, j2, le_trans i3 j3, fun t ht τ hτ => ?_⟩
    rcases Nat.lt_or_ge t n with hlt | hge
    · exact le_trans (i4 t hlt τ hτ) j3
    · obtain rfl : t = n := by omega
      exact j4 τ hτ

theorem forLoop_addTerms_zero (fl : α → α) (h0 : fl 0 = 0) (terms : Nat → List α) (n : Nat)
    (hterms : ∀ t, t < n → ∀ τ, τ ∈ terms t → τ = 0) (fg : Nat → α) (hv : fg 0 = 0) :
    forLoop 0 n (fun t g => Function.update g 0 (addTerms fl (terms t) (g 0))) fg 0 = 0 := by
  induction n with
  | zero => rw [forLoop_of_le _ _ _ _ (le_refl 0), hv]
  | succ n ih =>
    rw [forLoop_succ _ _ _ _ (Nat.zero_le n)]
    simp only [Function.update_same]
    rw [ih (fun t ht => hterms t (by omega))]
    exact addTerms_zero fl h0 (terms n) (hterms n (by omega))

/-- One weighted term `w * p`, where `p` is a non-negative `double`: it is non-negative,
a fixed point of the rounding, and it vanishes only when `p` does. -/
theorem sqTerm_spec (fl : α → α) (hmono : ∀ x y, x ≤ y → fl x ≤ fl y)
    (hidem : ∀ x, fl (fl x) = fl x) (w p : α) (hw : 1 ≤ w) (hp : 0 ≤ p)
    (hpfix : fl p = p) :
    0 ≤ fl (w * p) ∧ fl (fl (w * p)) = fl (w * p) ∧ (fl (w * p) = 0 → p = 0) := by
  have hle : p ≤ fl (w * p) := by
    have := hmono p (w * p) (by nlinarith)
    rwa [hpfix] at this
  exact ⟨le_trans hp hle, hidem _, fun h => le_antisymm (by rw [← h]; exact hle) hp⟩

theorem cost_ref_rounded_eq (fl pw : α → α) (N : Nat) (vars fg : Nat → α) :
    FG_eval.cost_ref_rounded fl pw N vars fg
      = forLoop 0 N (fun t g => Function.update g 0 (addTerms fl
          [fl (w_ref_cte * pw (fl (vars (cte_start N + t) - ref_cte))),
            fl (w_ref_epsi * pw (fl (vars (epsi_start N + t) - ref_epsi))),
            fl (w_ref_v * pw (fl (vars (v_start N + t) - ref_v)))] (g 0))) fg := by
  unfold FG_eval.cost_ref_rounded
  congr 1
  funext t g
  simp [addTerms]

theorem cost_act_rounded_eq (fl pw : α → α) (N : Nat) (vars fg : Nat → α) :
    FG_eval.cost_act_rounded fl pw N vars fg
      = forLoop 0 (N - 1) (fun t g => Function.update g 0 (addTerms fl
          [fl (w_act_delta * pw (vars (delta_start N + t))),
            fl (w_act_a * pw (vars (a_start N + t)))] (g 0))) fg := by
  unfold FG_eval.cost_act_rounded
  congr 1
  funext t g
  simp [addTerms]

theorem cost_dif_rounded_eq (fl pw : α → α) (N : Nat) (vars fg : Nat → α) :
    FG_eval.cost_dif_rounded fl pw N vars fg
      = forLoop 0 (N - 2) (fun t g => Function.update g 0 (addTerms fl
          [fl (w_dif_delta
              * pw (fl (vars (delta_start N + t + 1) - vars (delta_start N + t)))),
            fl (w_dif_a
              * pw (fl (vars (a_start N + t + 1) - vars (a_start N + t))))] (g 0)))
          fg := by
  unfold FG_eval.cost_dif_rounded
  congr 1
  funext t g
  simp [addTerms]

/-- With the rounding switched off and the exact square for `CppAD::pow(x, 2)`, the
rounded objective is the objective `fg[0]` of `FG_eval.operator`. -/
theorem cost_rounded_exact (m : Trig α) (N : Nat) (dt : α) (c : FG_eval α)
    (fg vars : Nat → α) :
    FG_eval.cost_rounded id (fun x => x ^ 2) N fg vars 0 = c.operator m N dt fg vars 0 := by
  simp only [FG_eval.operator]
  rw [forLoop_frame _ _ _ _ _ (fun t _ _ g => constraints_step_zero m N dt c vars t g),
    constraints_init_zero]
  rfl

/-- A rounded objective of `0` forces every square computed in the first two cost loops
to `0`. -/
theorem cost_rounded_eq_zero (fl pw : α → α) (hmono : ∀ x y, x ≤ y → fl x ≤ fl y)
    (hidem : ∀ x, fl (fl x) = fl x) (h0 : fl 0 = 0) (hpw : ∀ x, 0 ≤ pw x)
    (hpwfix : ∀ x, fl (pw x) = pw x) (N : Nat) (fg vars : Nat → α)
    (hcost : FG_eval.cost_rounded fl pw N fg vars 0 = 0) :
    (∀ t, t < N → pw (fl (vars (cte_start N + t) - ref_cte)) = 0
        ∧ pw (fl (vars (epsi_start N + t) - ref_epsi)) = 0
        ∧ pw (fl (vars (v_start N + t) - ref_v)) = 0)
      ∧ ∀ t, t < N - 1 → pw (vars (delta_start N + t)) = 0
        ∧ pw (vars (a_start N + t)) = 0 := by
  have hw1 : (1 : α) ≤ w_ref_cte := by norm_num [w_ref_cte]
  have hw2 : (1 : α) ≤ w_ref_epsi := by norm_num [w_ref_epsi]
  have hw3 : (1 : α) ≤ w_ref_v := by norm_num [w_ref_v]
  have hw4 : (1 : α) ≤ w_act_delta := by norm_num [w_act_delta]
  have hw5 : (1 : α) ≤ w_act_a := by norm_num [w_act_a]
  have hw6 : (1 : α) ≤ w_dif_delta := by norm_num [w_dif_delta]
  have hw7 : (1 : α) ≤ w_dif_a := by norm_num [w_dif_a]
  have T := fun (w d : α) (hw : 1 ≤ w) =>
    sqTerm_spec fl hmono hidem w (pw d) hw (hpw d) (hpwfix d)
  simp only [FG_eval.cost_rounded] at hcost
  rw [cost_dif_rounded_eq, cost_act_rounded_eq, cost_ref_rounded_eq] at hcost
  obtain ⟨a1, a2, -, a4⟩ := forLoop_addTerms_spec fl hmono hidem
    (fun t => [fl (w_ref_cte * pw (fl (vars (cte_start N + t) - ref_cte))),
      fl (w_ref_epsi * pw (fl (vars (epsi_start N + t) - ref_epsi))),
      fl (w_ref_v * pw (fl (vars (v_start N + t) - ref_v)))]) N
    (fun t _ τ hτ => by
      simp only [List.mem_cons, List.mem_singleton, List.not_mem_nil, or_false] at hτ
      rcases hτ with rfl | rfl | rfl
      · exact ⟨(T _ _ hw1).1, (T _ _ hw1).2.1⟩
      · exact ⟨(T _ _ hw2).1, (T _ _ hw2).2.1⟩
      · exact ⟨(T _ _ hw3).1, (T _ _ hw3).2.1⟩)
    (Function.update fg 0 0) (by simp) (by simp [h0])
  obtain ⟨b1, b2, b3, b4⟩ := forLoop_addTerms_spec fl hmono hidem
    (fun t => [fl (w_act_delta * pw (vars (delta_start N + t))),
      fl (w_act_a * pw (vars (a_start N + t)))]) (N - 1)
    (fun t _ τ hτ => by
      simp only [List.mem_cons, List.mem_singleton, List.not_mem_nil, or_false] at hτ
      rcases hτ with rfl | rfl
      · exact ⟨(T _ _ hw4).1, (T _ _ hw4).2.1⟩
      · exact ⟨(T _ _ hw5).1, (T _ _ hw5).2.1⟩)
    _ a1 a2
  obtain ⟨-, -, c3, -⟩ := forLoop_addTerms_spec fl hmono hidem
    (fun t => [fl (w_dif_delta
        * pw (fl (vars (delta_start N + t + 1) - vars (delta_start N + t)))),
      fl (w_dif_a * pw (fl (vars (a_start N + t + 1) - vars (a_start N + t))))])
    (N - 2)
    (fun t _ τ hτ => by
      simp only [List.mem_cons, List.mem_singleton, List.not_mem_nil, or_false] at hτ
      rcases hτ with rfl | rfl
      · exact ⟨(T _ _ hw6).1, (T _ _ hw6).2.1⟩
      · exact ⟨(T _ _ hw7).1, (T _ _ hw7).2.1⟩)
    _ b1 b2
  rw [hcost] at c3
  have e2 := le_antisymm c3 b1
  rw [e2] at b3
  have e1 := le_antisymm b3 a1
  refine ⟨fun t ht => ⟨?_, ?_, ?_⟩, fun t ht => ⟨?_, ?_⟩⟩
  · exact (T _ _ hw1).2.2 (le_antisymm (by rw [← e1]; exact a4 t ht _ (by simp))
      (T _ _ hw1).1)
  · exact (T _ _ hw2).2.2 (le_antisymm (by rw [← e1]; exact a4 t ht _ (by simp))
      (T _ _ hw2).1)
  · exact (T _ _ hw3).2.2 (le_antisymm (by rw [← e1]; exact a4 t ht _ (by simp))
      (T _ _ hw3).1)
  · exact (T _ _ hw4).2.2 (le_antisymm (by rw [← e2]; exact b4 t ht _ (by simp))
      (T _ _ hw4).1)
  · exact (T _ _ hw5).2.2 (le_antisymm (by rw [← e2]; exact b4 t ht _ (by simp))
      (T _ _ hw5).1)

end Rounded

/-! ## Underflow -/

theorem roundUnderflow_zero : roundUnderflow 0 = 0 := by
  simp [roundUnderflow]

theorem roundUnderflow_idem (x : ℚ) : roundUnderflow (roundUnderflow x) = roundUnderflow x := by
  unfold roundUnderflow
  by_cases h : |x| ≤ 1 / 2 ^ 1075
  · rw [if_pos h, abs_zero, if_pos (by positivity)]
  · rw [if_neg h, if_neg h]

theorem roundUnderflow_mono (x y : ℚ) (hxy : x ≤ y) : roundUnderflow x ≤ roundUnderflow y := by
  unfold roundUnderflow
  have hτ : (0 : ℚ) < 1 / 2 ^ 1075 := by positivity
  by_cases hx : |x| ≤ 1 / 2 ^ 1075 <;> by_cases hy : |y| ≤ 1 / 2 ^ 1075
  · rw [if_pos hx, if_pos hy]
  · rw [if_pos hx, if_neg hy]
    rw [abs_le] at hx
    rw [not_le, lt_abs] at hy
    rcases hy with hy | hy <;> linarith
  · rw [if_neg hx, if_pos hy]
    rw [abs_le] at hy
    rw [not_le, lt_abs] at hx
    rcases hx with hx | hx <;> linarith
  · rw [if_neg hx, if_neg hy]
    exact hxy

theorem powUnderflow_nonneg (x : ℚ) : 0 ≤ powUnderflow x := by
  unfold powUnderflow roundUnderflow
  split_ifs
  · exact le_refl 0
  · exact sq_nonneg x

theorem powUnderflow_fixed (x : ℚ) : roundUnderflow (powUnderflow x) = powUnderflow x :=
  roundUnderflow_idem (x ^ 2)

theorem powUnderflow_zero : powUnderflow 0 = 0 := by
  simp [powUnderflow, roundUnderflow_zero]

/-- A quantity whose square is at most `2 ^ (-1075)` has a computed square of `0`. -/
theorem powUnderflow_of_small (x : ℚ) (h : x ^ 2 ≤ 1 / 2 ^ 1075) :
    powUnderflow (roundUnderflow x) = 0 := by
  have hτ : (0 : ℚ) ≤ 1 / 2 ^ 1075 := by positivity
  unfold powUnderflow
  by_cases hx : |x| ≤ 1 / 2 ^ 1075
  · simp only [roundUnderflow, if_pos hx]
    rw [if_pos (by simp)]
  · have e : roundUnderflow x = x := by simp only [roundUnderflow, if_neg hx]
    rw [e]
    simp only [roundUnderflow]
    rw [if_pos (by rw [abs_of_nonneg (sq_nonneg x)]; exact h)]

theorem roundUnderflow_term_of_small (w x : ℚ) (h : x ^ 2 ≤ 1 / 2 ^ 1075) :
    roundUnderflow (w * powUnderflow (roundUnderflow x)) = 0 := by
  rw [powUnderflow_of_small x h, mul_zero, roundUnderflow_zero]

/-- The rounded objective of `tinyCteVars` at `N = 10` is `0`: the square of `cte_0`
underflows and every other term is `0`. -/
theorem tinyCteVars_cost_zero (fg : Nat → ℚ) :
    FG_eval.cost_rounded roundUnderflow powUnderflow 10 fg tinyCteVars 0 = 0 := by
  have hcte : ∀ t, t < 10 → (tinyCteVars (cte_start 10 + t) - ref_cte) ^ 2 ≤ 1 / 2 ^ 1075 := by
    intro t ht
    rw [cte_start_eq]
    interval_cases t <;> norm_num [tinyCteVars, ref_cte]
  have hzero : ∀ i, 50 ≤ i → tinyCteVars i = 0 := by
    intro i hi
    simp only [tinyCteVars]
    rw [if_neg (by omega), if_neg (by omega)]
  have hv : ∀ t, t < 10 → tinyCteVars (v_start 10 + t) = 100 := by
    intro t ht
    simp only [tinyCteVars, v_start_eq]
    rw [if_neg (by omega), if_pos (by omega)]
  simp only [FG_eval.cost_rounded]
  rw [cost_dif_rounded_eq, cost_act_rounded_eq, cost_ref_rounded_eq]
  apply forLoop_addTerms_zero roundUnderflow roundUnderflow_zero
  · intro t ht τ hτmem
    simp only [List.mem_cons, List.mem_singleton, List.not_mem_nil, or_false] at hτmem
    rcases hτmem with rfl | rfl
    · rw [hzero _ (by rw [delta_start_eq]; omega), hzero _ (by rw [delta_start_eq]; omega)]
      exact roundUnderflow_term_of_small _ _ (by simp)
    · rw [hzero _ (by rw [a_start_eq]; omega), hzero _ (by rw [a_start_eq]; omega)]
      exact roundUnderflow_term_of_small _ _ (by simp)
  apply forLoop_addTerms_zero roundUnderflow roundUnderflow_zero
  · intro t ht τ hτmem
    simp only [List.mem_cons, List.mem_singleton, List.not_mem_nil, or_false] at hτmem
    rcases hτmem with rfl | rfl
    · rw [hzero _ (by rw [delta_start_eq]; omega)]
      simp [roundUnderflow_zero, powUnderflow_zero]
    · rw [hzero _ (by rw [a_start_eq]; omega)]
      simp [roundUnderflow_zero, powUnderflow_zero]
  apply forLoop_addTerms_zero roundUnderflow roundUnderflow_zero
  · intro t ht τ hτmem
    simp only [List.mem_cons, List.mem_singleton, List.not_mem_nil, or_false] at hτmem
    rcases hτmem with rfl | rfl | rfl
    · exact roundUnderflow_term_of_small _ _ (hcte t (by omega))
    · rw [hzero _ (by rw [epsi_start_eq]; omega)]
      exact roundUnderflow_term_of_small _ _ (by simp [ref_epsi])
    · rw [hv t (by omega)]
      exact roundUnderflow_term_of_small _ _ (by simp [ref_v])
  · simp

/-! ## The constraint entries `fg[1 ..]` -/

section Transitions

variable [LinearOrderedField α]

theorem constraints_step_other (m : Trig α) (N : Nat) (dt : α) (c : FG_eval α)
    (vars : Nat → α) (t : Nat) (fg : Nat → α) (j : Nat) (h : ¬ writtenAt N t j) :
    FG_eval.constraints_step m N dt c vars t fg j = fg j := by
  simp only [writtenAt, not_or] at h
  obtain ⟨h1, h2, h3, h4, h5, h6⟩ := h
  simp only [FG_eval.constraints_step]
  rw [Function.update_noteq h6, Function.update_noteq h5, Function.update_noteq h4,
    Function.update_noteq h3, Function.update_noteq h2, Function.update_noteq h1]

/-- On the slots it assigns, an iteration does not depend on the incoming `fg`. -/
theorem constraints_step_written (m : Trig α) (N : Nat) (dt : α) (c : FG_eval α)
    (vars : Nat → α) (t : Nat) (fg fg2 : Nat → α) (j : Nat) (h : writtenAt N t j) :
    FG_eval.constraints_step m N dt c vars t fg j
      = FG_eval.constraints_step m N dt c vars t fg2 j := by
  simp only [FG_eval.constraints_step, Function.update_apply]
  simp only [writtenAt] at h
  split_ifs <;> first | rfl | omega

theorem writtenAt_disjoint (N t u j : Nat) (ht : t < N) (hu : u < N) (htu : t ≠ u)
    (h : writtenAt N t j) : ¬ writtenAt N u j := by
  simp only [writtenAt, y_start_eq, psi_start_eq, v_start_eq, cte_start_eq, epsi_start_eq,
    x_start] at h ⊢
  omega

/-- After the transition loop, a slot assigned by iteration `t` holds what iteration
`t` put there. -/
theorem constraints_loop_written (m : Trig α) (N : Nat) (dt : α) (c : FG_eval α)
    (vars fg : Nat → α) (n t j : Nat) (ht1 : 1 ≤ t) (htn : t < n) (hn : n ≤ N)
    (h : writtenAt N t j) :
    forLoop 1 n (FG_eval.constraints_step m N dt c vars) fg j
      = FG_eval.constraints_step m N dt c vars t fg j := by
  induction n with
  | zero => omega
  | succ n ih =>
    rw [forLoop_succ _ _ _ _ (by omega)]
    rcases Nat.lt_or_ge t n with hlt | hge
    · rw [constraints_step_other _ _ _ _ _ _ _ _
        (writtenAt_disjoint N t n j (by omega) (by omega) (by omega) h)]
      exact ih hlt (by omega)
    · have e : t = n := by omega
      subst e
      exact constraints_step_written m N dt c vars t _ _ j h

/-- The transition loop leaves the slots that no iteration assigns alone. -/
theorem constraints_loop_other (m : Trig α) (N : Nat) (dt : α) (c : FG_eval α)
    (vars fg : Nat → α) (n j : Nat) (h : ∀ t, 1 ≤ t → t < n → ¬ writtenAt N t j) :
    forLoop 1 n (FG_eval.constraints_step m N dt c vars) fg j = fg j :=
  forLoop_frame 1 n _ fg j
    (fun t h1 h2 g => constraints_step_other m N dt c vars t g j (h t h1 h2))

/-- The outgoing `fg` on a transition slot. -/
theorem operator_written (m : Trig α) (N : Nat) (dt : α) (c : FG_eval α)
    (fg vars : Nat → α) (t j : Nat) (ht1 : 1 ≤ t) (htN : t < N) (h : writtenAt N t j) :
    c.operator m N dt fg vars j = FG_eval.constraints_step m N dt c vars t fg j := by
  simp only [FG_eval.operator]
  rw [constraints_loop_written m N dt c vars _ N t j ht1 htN (le_refl N) h]
  exact constraints_step_written m N dt c vars t _ _ j h

/-- Each transition entry is the declared state minus the Vehicle Model prediction. -/
theorem operator_transition (m : Trig α) (N : Nat) (dt : α) (c : FG_eval α)
    (fg vars : Nat → α) (t : Nat) (ht1 : 1 ≤ t) (htN : t < N) :
    c.operator m N dt fg vars (1 + t)
        = (declared_state N vars t).x - (predicted_state m N dt c.coeffs vars t).x
      ∧ c.operator m N dt fg vars (1 + N + t)
        = (declared_state N vars t).y - (predicted_state m N dt c.coeffs vars t).y
      ∧ c.operator m N dt fg vars (1 + 2 * N + t)
        = (declared_state N vars t).psi - (predicted_state m N dt c.coeffs vars t).psi
      ∧ c.operator m N dt fg vars (1 + 3 * N + t)
        = (declared_state N vars t).v - (predicted_state m N dt c.coeffs vars t).v
      ∧ c.operator m N dt fg vars (1 + 4 * N + t)
        = (declared_state N vars t).cte - (predicted_state m N dt c.coeffs vars t).cte
      ∧ c.operator m N dt fg vars (1 + 5 * N + t)
        = (declared_state N vars t).epsi - (predicted_state m N dt c.coeffs vars t).epsi := by
  obtain ⟨s, rfl⟩ : ∃ s, t = s + 1 := ⟨t - 1, by omega⟩
  have hw : ∀ j, writtenAt N (s + 1) j → c.operator m N dt fg vars j
      = FG_eval.constraints_step m N dt c vars (s + 1) fg j :=
    fun j h => operator_written m N dt c fg vars (s + 1) j ht1 htN h
  have w : ∀ j, (j = 1 + (s + 1) ∨ j = 1 + N + (s + 1) ∨ j = 1 + 2 * N + (s + 1)
      ∨ j = 1 + 3 * N + (s + 1) ∨ j = 1 + 4 * N + (s + 1) ∨ j = 1 + 5 * N + (s + 1))
      → writtenAt N (s + 1) j := by
    intro j hj
    simp only [writtenAt, y_start_eq, psi_start_eq, v_start_eq, cte_start_eq, epsi_start_eq,
      x_start]
    omega
  refine ⟨?_, ?_, ?_, ?_, ?_, ?_⟩
  all_goals
    rw [hw _ (w _ (by omega))]
    simp only [FG_eval.constraints_step, Function.update_apply, declared_state,
      declared_actuation, predicted_state, vehicleModel, y_start_eq, psi_start_eq, v_start_eq, cte_start_eq,
      epsi_start_eq, delta_start_eq, a_start_eq, x_start, ← Nat.add_assoc,
      Nat.add_sub_cancel, Nat.zero_add]
    split_ifs <;> first | omega | ring1 | ring_nf

/-- The step-0 entries survive the transition loop: they hold the declared step-0 state. -/
theorem operator_init (m : Trig α) (N : Nat) (dt : α) (c : FG_eval α)
    (fg vars : Nat → α) (hN : 1 ≤ N) :
    c.operator m N dt fg vars 1 = (declared_state N vars 0).x
      ∧ c.operator m N dt fg vars (1 + N) = (declared_state N vars 0).y
      ∧ c.operator m N dt fg vars (1 + 2 * N) = (declared_state N vars 0).psi
      ∧ c.operator m N dt fg vars (1 + 3 * N) = (declared_state N vars 0).v
      ∧ c.operator m N dt fg vars (1 + 4 * N) = (declared_state N vars 0).cte
      ∧ c.operator m N dt fg vars (1 + 5 * N) = (declared_state N vars 0).epsi := by
  have hfree : ∀ j, (j = 1 ∨ j = 1 + N ∨ j = 1 + 2 * N ∨ j = 1 + 3 * N ∨ j = 1 + 4 * N
      ∨ j = 1 + 5 * N) → ∀ t, 1 ≤ t → t < N → ¬ writtenAt N t j := by
    intro j hj t ht1 htN
    simp only [writtenAt, y_start_eq, psi_start_eq, v_start_eq, cte_start_eq, epsi_start_eq,
      x_start]
    omega
  simp only [FG_eval.operator]
  refine ⟨?_, ?_, ?_, ?_, ?_, ?_⟩
  all_goals
    rw [constraints_loop_other m N dt c vars _ N _ (hfree _ (by omega))]
    simp only [FG_eval.constraints_init, Function.update_apply, declared_state, y_start_eq,
      psi_start_eq, v_start_eq, cte_start_eq, epsi_start_eq, x_start, Nat.add_zero]
    split_ifs <;> first | omega | rfl

end Transitions

/-! ## The problem that `MPC::Solve` builds -/

section Bounds

variable [LinearOrderedField α]

theorem Solve_problem_vars (junk : Nat → Nat → α) (N : Nat) (M_PI : α)
    (state coeffs : List α) :
    (MPC.Solve_problem junk N M_PI state coeffs).vars
      = forLoop 0 (N * state.length + (N - 1) * 2) (fun i w => w.set i 0)
          (Dvector (junk 0) (N * state.length + (N - 1) * 2)) := by
  simp only [MPC.Solve_problem, forLoop_set_pair]

theorem Solve_problem_vars_lowerbound (junk : Nat → Nat → α) (N : Nat) (M_PI : α)
    (state coeffs : List α) :
    (MPC.Solve_problem junk N M_PI state coeffs).vars_lowerbound
      = forLoop (a_start N) (N * state.length + (N - 1) * 2) (fun i w => w.set i (-1.0))
          (forLoop (delta_start N) (a_start N) (fun i w => w.set i (-25 * M_PI / 180))
            (forLoop 0 (delta_start N) (fun i w => w.set i (-1e10))
              (Dvector (junk 1) (N * state.length + (N - 1) * 2)))) := by
  simp only [MPC.Solve_problem, forLoop_set_pair]

theorem Solve_problem_vars_upperbound (junk : Nat → Nat → α) (N : Nat) (M_PI : α)
    (state coeffs : List α) :
    (MPC.Solve_problem junk N M_PI state coeffs).vars_upperbound
      = forLoop (a_start N) (N * state.length + (N - 1) * 2) (fun i w => w.set i 1.0)
          (forLoop (delta_start N) (a_start N) (fun i w => w.set i (25 * M_PI / 180))
            (forLoop 0 (delta_start N) (fun i w => w.set i 1e10)
              (Dvector (junk 2) (N * state.length + (N - 1) * 2)))) := by
  simp only [MPC.Solve_problem, forLoop_set_pair]

theorem Solve_problem_constraints_lowerbound (junk : Nat → Nat → α) (N : Nat) (M_PI : α)
    (state coeffs : List α) :
    (MPC.Solve_problem junk N M_PI state coeffs).constraints_lowerbound
      = ((((((forLoop 0 (N * state.length) (fun i w => w.set i 0)
          (Dvector (junk 3) (N * state.length))).set x_start (state.getD 0 0)).set
            (y_start N) (state.getD 1 0)).set (psi_start N) (state.getD 2 0)).set
              (v_start N) (state.getD 3 0)).set (cte_start N) (state.getD 4 0)).set
                (epsi_start N) (state.getD 5 0) := by
  simp only [MPC.Solve_problem, forLoop_set_pair]

theorem Solve_problem_constraints_upperbound (junk : Nat → Nat → α) (N : Nat) (M_PI : α)
    (state coeffs : List α) :
    (MPC.Solve_problem junk N M_PI state coeffs).constraints_upperbound
      = ((((((forLoop 0 (N * state.length) (fun i w => w.set i 0)
          (Dvector (junk 4) (N * state.length))).set x_start (state.getD 0 0)).set
            (y_start N) (state.getD 1 0)).set (psi_start N) (state.getD 2 0)).set
              (v_start N) (state.getD 3 0)).set (cte_start N) (state.getD 4 0)).set
                (epsi_start N) (state.getD 5 0) := by
  simp only [MPC.Solve_problem, forLoop_set_pair]

omit [LinearOrderedField α] in
theorem getElem?_set_some (l : List α) (i j : Nat) (a f : α) (hi : i < l.length)
    (h : l[j]? = some f) : (l.set i a)[j]? = some (if j = i then a else f) := by
  rw [List.getElem?_set]
  by_cases e : i = j
  · subst e
    rw [if_pos rfl, if_pos hi, if_pos rfl]
  · rw [if_neg e, if_neg (Ne.symm e), h]

/-- Every slot of a constraint-bound vector, as built from its six pinned entries. -/
theorem pinned_getElem? (junk : Nat → α) (N n : Nat) (x y psi v cte epsi : α) (j : Nat)
    (hj : j < n) (hn : 5 * N < n) :
    (((((((forLoop 0 n (fun i w => w.set i 0) (Dvector junk n)).set x_start x).set
      (y_start N) y).set (psi_start N) psi).set (v_start N) v).set (cte_start N) cte).set
        (epsi_start N) epsi)[j]?
      = some (if j = 5 * N then epsi else if j = 4 * N then cte else if j = 3 * N then v
          else if j = 2 * N then psi else if j = N then y else if j = 0 then x else 0) := by
  have len : (forLoop 0 n (fun i w => w.set i (0 : α)) (Dvector junk n)).length = n := by
    rw [forLoop_set_length, Dvector_length]
  have h0 : (forLoop 0 n (fun i w => w.set i (0 : α)) (Dvector junk n))[j]? = some 0 := by
    rw [forLoop_set_getElem?, Dvector_length, if_pos (by omega)]
  have h1 := getElem?_set_some _ x_start j x _ (by rw [len, x_start]; omega) h0
  have h2 := getElem?_set_some _ (y_start N) j y _
    (by rw [List.length_set, len, y_start_eq]; omega) h1
  have h3 := getElem?_set_some _ (psi_start N) j psi _
    (by rw [List.length_set, List.length_set, len, psi_start_eq]; omega) h2
  have h4 := getElem?_set_some _ (v_start N) j v _
    (by rw [List.length_set, List.length_set, List.length_set, len, v_start_eq]; omega) h3
  have h5 := getElem?_set_some _ (cte_start N) j cte _
    (by rw [List.length_set, List.length_set, List.length_set, List.length_set, len,
      cte_start_eq]; omega) h4
  have h6 := getElem?_set_some _ (epsi_start N) j epsi _
    (by rw [List.length_set, List.length_set, List.length_set, List.length_set,
      List.length_set, len, epsi_start_eq]; omega) h5
  rw [h6, y_start_eq, psi_start_eq, v_start_eq, cte_start_eq, epsi_start_eq, x_start]

/-- Every slot of the lower variable bounds, by the group it belongs to. -/
theorem vars_lowerbound_getElem? (junk : Nat → Nat → α) (N : Nat) (M_PI : α)
    (state coeffs : List α) (hN : 1 ≤ N) (hs : state.length = 6) (j : Nat)
    (hj : j < 8 * N - 2) :
    (MPC.Solve_problem junk N M_PI state coeffs).vars_lowerbound[j]?
      = some (if 7 * N - 1 ≤ j then -1.0 else if 6 * N ≤ j then -25 * M_PI / 180
          else -1e10) := by
  rw [Solve_problem_vars_lowerbound]
  simp only [forLoop_set_getElem?, forLoop_set_length, Dvector_length, hs, delta_start_eq,
    a_start_eq]
  by_cases h1 : 7 * N - 1 ≤ j
  · rw [if_pos (by omega), if_pos h1]
  · rw [if_neg (by omega), if_neg h1]
    by_cases h2 : 6 * N ≤ j
    · rw [if_pos (by omega), if_pos h2]
    · rw [if_neg (by omega), if_neg h2, if_pos (by omega)]

/-- Every slot of the upper variable bounds, by the group it belongs to. -/
theorem vars_upperbound_getElem? (junk : Nat → Nat → α) (N : Nat) (M_PI : α)
    (state coeffs : List α) (hN : 1 ≤ N) (hs : state.length = 6) (j : Nat)
    (hj : j < 8 * N - 2) :
    (MPC.Solve_problem junk N M_PI state coeffs).vars_upperbound[j]?
      = some (if 7 * N - 1 ≤ j then 1.0 else if 6 * N ≤ j then 25 * M_PI / 180
          else 1e10) := by
  rw [Solve_problem_vars_upperbound]
  simp only [forLoop_set_getElem?, forLoop_set_length, Dvector_length, hs, delta_start_eq,
    a_start_eq]
  by_cases h1 : 7 * N - 1 ≤ j
  · rw [if_pos (by omega), if_pos h1]
  · rw [if_neg (by omega), if_neg h1]
    by_cases h2 : 6 * N ≤ j
    · rw [if_pos (by omega), if_pos h2]
    · rw [if_neg (by omega), if_neg h2, if_pos (by omega)]

/-- The lengths of the five vectors handed to the solver. -/
theorem Solve_problem_lengths (junk : Nat → Nat → α) (N : Nat) (M_PI : α)
    (state coeffs : List α) :
    (MPC.Solve_problem junk N M_PI state coeffs).vars.length
        = N * state.length + (N - 1) * 2
      ∧ (MPC.Solve_problem junk N M_PI state coeffs).vars_lowerbound.length
        = N * state.length + (N - 1) * 2
      ∧ (MPC.Solve_problem junk N M_PI state coeffs).vars_upperbound.length
        = N * state.length + (N - 1) * 2
      ∧ (MPC.Solve_problem junk N M_PI state coeffs).constraints_lowerbound.length
        = N * state.length
      ∧ (MPC.Solve_problem junk N M_PI state coeffs).constraints_upperbound.length
        = N * state.length := by
  rw [Solve_problem_vars, Solve_problem_vars_lowerbound, Solve_problem_vars_upperbound,
    Solve_problem_constraints_lowerbound, Solve_problem_constraints_upperbound]
  simp only [List.length_set, forLoop_set_length, Dvector_length, and_self]

/-- Every slot of the two constraint-bound vectors. -/
theorem constraints_bounds_getElem? (junk : Nat → Nat → α) (N : Nat) (M_PI : α)
    (state coeffs : List α) (hN : 1 ≤ N) (hs : state.length = 6) (j : Nat)
    (hj : j < 6 * N) :
    (MPC.Solve_problem junk N M_PI state coeffs).constraints_lowerbound[j]?
        = some (if j = 5 * N then state.getD 5 0 else if j = 4 * N then state.getD 4 0
          else if j = 3 * N then state.getD 3 0 else if j = 2 * N then state.getD 2 0
          else if j = N then state.getD 1 0 else if j = 0 then state.getD 0 0 else 0)
      ∧ (MPC.Solve_problem junk N M_PI state coeffs).constraints_upperbound[j]?
        = some (if j = 5 * N then state.getD 5 0 else if j = 4 * N then state.getD 4 0
          else if j = 3 * N then state.getD 3 0 else if j = 2 * N then state.getD 2 0
          else if j = N then state.getD 1 0 else if j = 0 then state.getD 0 0 else 0) := by
  rw [Solve_problem_constraints_lowerbound, Solve_problem_constraints_upperbound, hs]
  exact ⟨pinned_getElem? _ N (N * 6) _ _ _ _ _ _ j (by omega) (by omega),
    pinned_getElem? _ N (N * 6) _ _ _ _ _ _ j (by omega) (by omega)⟩

omit [LinearOrderedField α] in
/-- Assigning `c` to every slot of a fresh vector gives `n` copies of `c`. -/
theorem forLoop_set_all (junk : Nat → α) (n : Nat) (c : α) :
    forLoop 0 n (fun i w => w.set i c) (Dvector junk n) = List.replicate n c := by
  apply List.ext_getElem?
  intro j
  rw [forLoop_set_getElem?, Dvector_length, List.getElem?_replicate]
  by_cases hj : j < n
  · rw [if_pos ⟨Nat.zero_le j, hj, hj⟩, if_pos hj]
  · rw [if_neg (by omega), if_neg hj]
    exact List.getElem?_eq_none (by rw [Dvector_length]; omega)

omit [LinearOrderedField α] in
/-- Three loops that together assign every slot of a fresh vector. -/
theorem forLoop_set_three (junk : Nat → α) (n d a : Nat) (c1 c2 c3 : α) (j : Nat) :
    (forLoop a n (fun i w => w.set i c3) (forLoop d a (fun i w => w.set i c2)
      (forLoop 0 d (fun i w => w.set i c1) (Dvector junk n))))[j]?
      = if j < n then some (if a ≤ j then c3 else if d ≤ j then c2 else c1) else none := by
  simp only [forLoop_set_getElem?, forLoop_set_length, Dvector_length]
  by_cases hj : j < n
  · rw [if_pos hj]
    by_cases h1 : a ≤ j
    · rw [if_pos ⟨h1, hj, hj⟩, if_pos h1]
    · rw [if_neg (by omega), if_neg h1]
      by_cases h2 : d ≤ j
      · rw [if_pos (by omega), if_pos h2]
      · rw [if_neg (by omega), if_neg h2, if_pos (by omega)]
  · rw [if_neg (by omega), if_neg (by omega), if_neg (by omega), if_neg hj]
    exact List.getElem?_eq_none (by rw [Dvector_length]; omega)

/-- The initial guess is the zero vector. -/
theorem Solve_problem_vars_eq_replicate (junk : Nat → Nat → α) (N : Nat) (M_PI : α)
    (state coeffs : List α) :
    (MPC.Solve_problem junk N M_PI state coeffs).vars
      = List.replicate (N * state.length + (N - 1) * 2) 0 := by
  rw [Solve_problem_vars, forLoop_set_all]

/-- The problem handed to the solver does not depend on what the fresh vectors held. -/
theorem Solve_problem_junk_irrelevant (junk1 junk2 : Nat → Nat → α) (N : Nat) (M_PI : α)
    (state coeffs : List α) :
    MPC.Solve_problem junk1 N M_PI state coeffs = MPC.Solve_problem junk2 N M_PI state coeffs := by
  have eta : ∀ p : Problem α, p = ⟨p.options, p.vars, p.vars_lowerbound, p.vars_upperbound,
      p.constraints_lowerbound, p.constraints_upperbound, p.fg_eval⟩ := fun p => by
    cases p; rfl
  rw [eta (MPC.Solve_problem junk1 N M_PI state coeffs),
    eta (MPC.Solve_problem junk2 N M_PI state coeffs)]
  have hlb : (MPC.Solve_problem junk1 N M_PI state coeffs).vars_lowerbound
      = (MPC.Solve_problem junk2 N M_PI state coeffs).vars_lowerbound := by
    apply List.ext_getElem?
    intro j
    rw [Solve_problem_vars_lowerbound, Solve_problem_vars_lowerbound, forLoop_set_three,
      forLoop_set_three]
  have hub : (MPC.Solve_problem junk1 N M_PI state coeffs).vars_upperbound
      = (MPC.Solve_problem junk2 N M_PI state coeffs).vars_upperbound := by
    apply List.ext_getElem?
    intro j
    rw [Solve_problem_vars_upperbound, Solve_problem_vars_upperbound, forLoop_set_three,
      forLoop_set_three]
  rw [hlb, hub, Solve_problem_vars_eq_replicate, Solve_problem_vars_eq_replicate,
    Solve_problem_constraints_lowerbound, Solve_problem_constraints_lowerbound,
    Solve_problem_constraints_upperbound, Solve_problem_constraints_upperbound,
    forLoop_set_all, forLoop_set_all, forLoop_set_all, forLoop_set_all]
  rfl

theorem Solve_problem_fg_eval (junk : Nat → Nat → α) (N : Nat) (M_PI : α)
    (state coeffs : List α) :
    (MPC.Solve_problem junk N M_PI state coeffs).fg_eval = ⟨coeffs⟩ := by
  simp only [MPC.Solve_problem, forLoop_set_pair]

/-- Both constraint bounds at index `i`, as numbers. -/
theorem constraints_bounds_getD (junk : Nat → Nat → α) (N : Nat) (M_PI : α)
    (state coeffs : List α) (hN : 1 ≤ N) (hs : state.length = 6) (i : Nat)
    (hi : i < 6 * N) :
    (MPC.Solve_problem junk N M_PI state coeffs).constraints_lowerbound.getD i 0
        = (if i = 5 * N then state.getD 5 0 else if i = 4 * N then state.getD 4 0
          else if i = 3 * N then state.getD 3 0 else if i = 2 * N then state.getD 2 0
          else if i = N then state.getD 1 0 else if i = 0 then state.getD 0 0 else 0)
      ∧ (MPC.Solve_problem junk N M_PI state coeffs).constraints_upperbound.getD i 0
        = (if i = 5 * N then state.getD 5 0 else if i = 4 * N then state.getD 4 0
          else if i = 3 * N then state.getD 3 0 else if i = 2 * N then state.getD 2 0
          else if i = N then state.getD 1 0 else if i = 0 then state.getD 0 0 else 0) := by
  obtain ⟨h1, h2⟩ := constraints_bounds_getElem? junk N M_PI state coeffs hN hs i hi
  rw [List.getD_eq_getElem?_getD
      (MPC.Solve_problem junk N M_PI state coeffs).constraints_lowerbound,
    List.getD_eq_getElem?_getD
      (MPC.Solve_problem junk N M_PI state coeffs).constraints_upperbound, h1, h2]
  exact ⟨rfl, rfl⟩

/-- Satisfying the bounds means hitting them: lower and upper bound coincide everywhere. -/
theorem satisfies_constraints_iff_eq (m : Trig α) (N : Nat) (dt : α)
    (junk : Nat → Nat → α) (M_PI : α) (state coeffs : List α) (fg vars : Nat → α)
    (hN : 1 ≤ N) (hs : state.length = 6) :
    satisfies_constraints m N dt (MPC.Solve_problem junk N M_PI state coeffs) fg vars ↔
      ∀ i, i < 6 * N → (⟨coeffs⟩ : FG_eval α).operator m N dt fg vars (1 + i)
        = (if i = 5 * N then state.getD 5 0 else if i = 4 * N then state.getD 4 0
          else if i = 3 * N then state.getD 3 0 else if i = 2 * N then state.getD 2 0
          else if i = N then state.getD 1 0 else if i = 0 then state.getD 0 0 else 0) := by
  have hlen := (Solve_problem_lengths junk N M_PI state coeffs).2.2.2.1
  rw [hs] at hlen
  unfold satisfies_constraints
  rw [Solve_problem_fg_eval, hlen]
  constructor
  · intro h i hi
    obtain ⟨a, b⟩ := h i (by omega)
    obtain ⟨e1, e2⟩ := constraints_bounds_getD junk N M_PI state coeffs hN hs i hi
    rw [e1] at a
    rw [e2] at b
    exact le_antisymm b a
  · intro h i hi
    obtain ⟨e1, e2⟩ := constraints_bounds_getD junk N M_PI state coeffs hN hs i (by omega)
    rw [e1, e2, h i (by omega)]
    exact ⟨le_refl _, le_refl _⟩

/-- Hitting the bounds slot by slot is the pinned, dynamically consistent trajectory. -/
theorem residuals_hit_bounds_iff (m : Trig α) (N : Nat) (dt : α) (state coeffs : List α)
    (fg vars : Nat → α) (hN : 1 ≤ N) :
    (∀ i, i < 6 * N → (⟨coeffs⟩ : FG_eval α).operator m N dt fg vars (1 + i)
        = (if i = 5 * N then state.getD 5 0 else if i = 4 * N then state.getD 4 0
          else if i = 3 * N then state.getD 3 0 else if i = 2 * N then state.getD 2 0
          else if i = N then state.getD 1 0 else if i = 0 then state.getD 0 0 else 0)) ↔
      declared_state N vars 0 = State.ofVector state
        ∧ ∀ t, 1 ≤ t → t < N →
          declared_state N vars t = predicted_state m N dt coeffs vars t := by
  obtain ⟨i0, i1, i2, i3, i4, i5⟩ := operator_init m N dt (⟨coeffs⟩ : FG_eval α) fg vars hN
  have tr := operator_transition m N dt (⟨coeffs⟩ : FG_eval α) fg vars
  have ext : ∀ s1 s2 : State α, s1.x = s2.x → s1.y = s2.y → s1.psi = s2.psi → s1.v = s2.v →
      s1.cte = s2.cte → s1.epsi = s2.epsi → s1 = s2 := by
    intro s1 s2 h1 h2 h3 h4 h5 h6
    cases s1
    cases s2
    simp only at h1 h2 h3 h4 h5 h6
    rw [h1, h2, h3, h4, h5, h6]
  have fld : ∀ s1 s2 : State α, s1 = s2 → s1.x = s2.x ∧ s1.y = s2.y ∧ s1.psi = s2.psi
      ∧ s1.v = s2.v ∧ s1.cte = s2.cte ∧ s1.epsi = s2.epsi := by
    rintro s1 s2 rfl
    exact ⟨rfl, rfl, rfl, rfl, rfl, rfl⟩
  constructor
  · intro h
    refine ⟨?_, fun t ht1 htN => ?_⟩
    · apply ext
      · have e := h (0) (by omega)
        rw [Nat.add_zero, i0] at e
        rw [e, if_neg (by omega), if_neg (by omega), if_neg (by omega), if_neg (by omega), if_neg (by omega), if_pos (by omega)]
        rfl
      · have e := h (N) (by omega)
        rw [i1] at e
        rw [e, if_neg (by omega), if_neg (by omega), if_neg (by omega), if_neg (by omega), if_pos (by omega)]
        rfl
      · have e := h (2 * N) (by omega)
        rw [i2] at e
        rw [e, if_neg (by omega), if_neg (by omega), if_neg (by omega), if_pos (by omega)]
        rfl
      · have e := h (3 * N) (by omega)
        rw [i3] at e
        rw [e, if_neg (by omega), if_neg (by omega), if_pos (by omega)]
        rfl
      · have e := h (4 * N) (by omega)
        rw [i4] at e
        rw [e, if_neg (by omega), if_pos (by omega)]
        rfl
      · have e := h (5 * N) (by omega)
        rw [i5] at e
        rw [e, if_pos (by omega)]
        rfl
    · obtain ⟨t0, t1, t2, t3, t4, t5⟩ := tr t ht1 htN
      apply ext
      · have e := h (t) (by omega)
        rw [t0, if_neg (by omega), if_neg (by omega), if_neg (by omega), if_neg (by omega), if_neg (by omega), if_neg (by omega)] at e
        exact sub_eq_zero.1 e
      · have e := h (N + t) (by omega)
        rw [← Nat.add_assoc, t1, if_neg (by omega), if_neg (by omega), if_neg (by omega), if_neg (by omega), if_neg (by omega), if_neg (by omega)] at e
        exact sub_eq_zero.1 e
      · have e := h (2 * N + t) (by omega)
        rw [← Nat.add_assoc, t2, if_neg (by omega), if_neg (by omega), if_neg (by omega), if_neg (by omega), if_neg (by omega), if_neg (by omega)] at e
        exact sub_eq_zero.1 e
      · have e := h (3 * N + t) (by omega)
        rw [← Nat.add_assoc, t3, if_neg (by omega), if_neg (by omega), if_neg (by omega), if_neg (by omega), if_neg (by omega), if_neg (by omega)] at e
        exact sub_eq_zero.1 e
      · have e := h (4 * N + t) (by omega)
        rw [← Nat.add_assoc, t4, if_neg (by omega), if_neg (by omega), if_neg (by omega), if_neg (by omega), if_neg (by omega), if_neg (by omega)] at e
        exact sub_eq_zero.1 e
      · have e := h (5 * N + t) (by omega)
        rw [← Nat.add_assoc, t5, if_neg (by omega), if_neg (by omega), if_neg (by omega), if_neg (by omega), if_neg (by omega), if_neg (by omega)] at e
        exact sub_eq_zero.1 e
  · rintro ⟨hs0, hst⟩ i hi
    replace hs0 := fld _ _ hs0
    by_cases c0 : i < N
    · rcases Nat.eq_zero_or_pos i with h0 | hpos
      · subst h0
        rw [Nat.add_zero, i0, hs0.1, if_neg (by omega), if_neg (by omega), if_neg (by omega), if_neg (by omega), if_neg (by omega), if_pos (by omega)]
        rfl
      · obtain ⟨t0, t1, t2, t3, t4, t5⟩ := tr i hpos (by omega)
        rw [t0, hst i hpos (by omega), sub_self,
          if_neg (by omega), if_neg (by omega), if_neg (by omega), if_neg (by omega), if_neg (by omega), if_neg (by omega)]
    by_cases c1 : i < 2 * N
    · obtain ⟨t, rfl⟩ : ∃ t, i = N + t := ⟨i - N, by omega⟩
      rcases Nat.eq_zero_or_pos t with h0 | hpos
      · subst h0
        rw [Nat.add_zero, i1, hs0.2.1, if_neg (by omega), if_neg (by omega), if_neg (by omega), if_neg (by omega), if_pos (by omega)]
        rfl
      · obtain ⟨t0, t1, t2, t3, t4, t5⟩ := tr t hpos (by omega)
        rw [← Nat.add_assoc, t1, hst t hpos (by omega), sub_self,
          if_neg (by omega), if_neg (by omega), if_neg (by omega), if_neg (by omega), if_neg (by omega), if_neg (by omega)]
    by_cases c2 : i < 3 * N
    · obtain ⟨t, rfl⟩ : ∃ t, i = 2 * N + t := ⟨i - 2 * N, by omega⟩
      rcases Nat.eq_zero_or_pos t with h0 | hpos
      · subst h0
        rw [Nat.add_zero, i2, hs0.2.2.1, if_neg (by omega), if_neg (by omega), if_neg (by omega), if_pos (by omega)]
        rfl
      · obtain ⟨t0, t1, t2, t3, t4, t5⟩ := tr t hpos (by omega)
        rw [← Nat.add_assoc, t2, hst t hpos (by omega), sub_self,
          if_neg (by omega), if_neg (by omega), if_neg (by omega), if_neg (by omega), if_neg (by omega), if_neg (by omega)]
    by_cases c3 : i < 4 * N
    · obtain ⟨t, rfl⟩ : ∃ t, i = 3 * N + t := ⟨i - 3 * N, by omega⟩
      rcases Nat.eq_zero_or_pos t with h0 | hpos
      · subst h0
        rw [Nat.add_zero, i3, hs0.2.2.2.1, if_neg (by omega), if_neg (by omega), if_pos (by omega)]
        rfl
      · obtain ⟨t0, t1, t2, t3, t4, t5⟩ := tr t hpos (by omega)
        rw [← Nat.add_assoc, t3, hst t hpos (by omega), sub_self,
          if_neg (by omega), if_neg (by omega), if_neg (by omega), if_neg (by omega), if_neg (by omega), if_neg (by omega)]
    by_cases c4 : i < 5 * N
    · obtain ⟨t, rfl⟩ : ∃ t, i = 4 * N + t := ⟨i - 4 * N, by omega⟩
      rcases Nat.eq_zero_or_pos t with h0 | hpos
      · subst h0
        rw [Nat.add_zero, i4, hs0.2.2.2.2.1, if_neg (by omega), if_pos (by omega)]
        rfl
      · obtain ⟨t0, t1, t2, t3, t4, t5⟩ := tr t hpos (by omega)
        rw [← Nat.add_assoc, t4, hst t hpos (by omega), sub_self,
          if_neg (by omega), if_neg (by omega), if_neg (by omega), if_neg (by omega), if_neg (by omega), if_neg (by omega)]
    · obtain ⟨t, rfl⟩ : ∃ t, i = 5 * N + t := ⟨i - 5 * N, by omega⟩
      rcases Nat.eq_zero_or_pos t with h0 | hpos
      · subst h0
        rw [Nat.add_zero, i5, hs0.2.2.2.2.2, if_pos (by omega)]
        rfl
      · obtain ⟨t0, t1, t2, t3, t4, t5⟩ := tr t hpos (by omega)
        rw [← Nat.add_assoc, t5, hst t hpos (by omega), sub_self,
          if_neg (by omega), if_neg (by omega), if_neg (by omega), if_neg (by omega), if_neg (by omega), if_neg (by omega)]

/-- Feasibility for the problem of `MPC::Solve`, in terms of the declared trajectory. -/
theorem feasible_iff (m : Trig α) (N : Nat) (dt : α) (junk : Nat → Nat → α) (M_PI : α)
    (state coeffs : List α) (fg vars : Nat → α) (hN : 1 ≤ N) (hs : state.length = 6) :
    satisfies_constraints m N dt (MPC.Solve_problem junk N M_PI state coeffs) fg vars ↔
      declared_state N vars 0 = State.ofVector state
        ∧ ∀ t, 1 ≤ t → t < N →
          declared_state N vars t = predicted_state m N dt coeffs vars t :=
  (satisfies_constraints_iff_eq m N dt junk M_PI state coeffs fg vars hN hs).trans
    (residuals_hit_bounds_iff m N dt state coeffs fg vars hN)

/-- Two feasible vectors with the same actuations declare the same states. -/
theorem feasible_states_agree (m : Trig α) (N : Nat) (dt : α) (junk : Nat → Nat → α)
    (M_PI : α) (state coeffs : List α) (fg1 fg2 vars1 vars2 : Nat → α) (hN : 1 ≤ N)
    (hs : state.length = 6)
    (h1 : satisfies_constraints m N dt (MPC.Solve_problem junk N M_PI state coeffs) fg1 vars1)
    (h2 : satisfies_constraints m N dt (MPC.Solve_problem junk N M_PI state coeffs) fg2 vars2)
    (hact : ∀ t, t < N - 1 → declared_actuation N vars1 t = declared_actuation N vars2 t) :
    ∀ t, t < N → declared_state N vars1 t = declared_state N vars2 t := by
  obtain ⟨a0, at1⟩ := (feasible_iff m N dt junk M_PI state coeffs fg1 vars1 hN hs).1 h1
  obtain ⟨b0, bt1⟩ := (feasible_iff m N dt junk M_PI state coeffs fg2 vars2 hN hs).1 h2
  intro t
  induction t with
  | zero => intro _; rw [a0, b0]
  | succ t ih =>
    intro ht
    rw [at1 (t + 1) (by omega) ht, bt1 (t + 1) (by omega) ht]
    simp only [predicted_state, Nat.add_sub_cancel]
    rw [ih (by omega), hact t (by omega)]

omit [LinearOrderedField α] in
/-- The entries of a vector below `6 N` are the fields of its declared states. -/
theorem vars_eq_of_declared_state_eq (N : Nat) (vars1 vars2 : Nat → α)
    (h : ∀ t, t < N → declared_state N vars1 t = declared_state N vars2 t) :
    ∀ i, i < 6 * N → vars1 i = vars2 i := by
  intro i hi
  have fld : ∀ t, t < N → vars1 t = vars2 t ∧ vars1 (N + t) = vars2 (N + t)
      ∧ vars1 (2 * N + t) = vars2 (2 * N + t) ∧ vars1 (3 * N + t) = vars2 (3 * N + t)
      ∧ vars1 (4 * N + t) = vars2 (4 * N + t) ∧ vars1 (5 * N + t) = vars2 (5 * N + t) := by
    intro t ht
    have e := h t ht
    simp only [declared_state, State.mk.injEq] at e
    exact e
  by_cases c0 : i < N
  · exact (fld i c0).1
  by_cases c1 : i < 2 * N
  · obtain ⟨t, rfl⟩ : ∃ t, i = N + t := ⟨i - N, by omega⟩
    exact (fld t (by omega)).2.1
  by_cases c2 : i < 3 * N
  · obtain ⟨t, rfl⟩ : ∃ t, i = 2 * N + t := ⟨i - 2 * N, by omega⟩
    exact (fld t (by omega)).2.2.1
  by_cases c3 : i < 4 * N
  · obtain ⟨t, rfl⟩ : ∃ t, i = 3 * N + t := ⟨i - 3 * N, by omega⟩
    exact (fld t (by omega)).2.2.2.1
  by_cases c4 : i < 5 * N
  · obtain ⟨t, rfl⟩ : ∃ t, i = 4 * N + t := ⟨i - 4 * N, by omega⟩
    exact (fld t (by omega)).2.2.2.2.1
  · obtain ⟨t, rfl⟩ : ∃ t, i = 5 * N + t := ⟨i - 5 * N, by omega⟩
    exact (fld t (by omega)).2.2.2.2.2

/-- The vector `straightVars` is feasible at `N = 2` for the state `(0, 0, 0, 10, 0, 0)`
on the straight path, with the truncated series for the elementary functions. -/
theorem straightVars_feasible (junk : Nat → Nat → ℚ) (fg : Nat → ℚ) (far : Nat → ℚ) :
    satisfies_constraints trigQ 2 0.1
      (MPC.Solve_problem junk 2 M_PI_double [0, 0, 0, 10, 0, 0] [0, 0, 0, 0]) fg
      (fun i => if i < 14 then straightVars i else far i) := by
  rw [feasible_iff trigQ 2 0.1 junk M_PI_double [0, 0, 0, 10, 0, 0] [0, 0, 0, 0] fg _
    (by decide) (by decide)]
  refine ⟨by simp [declared_state, State.ofVector, straightVars], fun t ht1 ht2 => ?_⟩
  obtain rfl : t = 1 := by omega
  simp [declared_state, declared_actuation, predicted_state, vehicleModel, trigQ,
    straightVars, Lf]
  norm_num

end Bounds

/-! ## What `MPC::Solve` returns -/

section Results

/-- A loop that appends `f i` and then `g i` builds the interleaved sequence. -/
theorem forLoop_push (f g : Nat → α) (n : Nat) (init : List α) :
    forLoop 0 n (fun i r => (r ++ [f i]) ++ [g i]) init
      = init ++ (List.range n).flatMap (fun i => [f i, g i]) := by
  induction n with
  | zero => simp [forLoop_of_le]
  | succ n ih =>
    rw [forLoop_succ _ _ _ _ (Nat.zero_le n), ih, List.range_succ, List.flatMap_append]
    simp

theorem length_flatMap_pair (f g : Nat → α) (n : Nat) :
    ((List.range n).flatMap (fun i => [f i, g i])).length = 2 * n := by
  induction n with
  | zero => simp
  | succ n ih =>
    rw [List.range_succ, List.flatMap_append, List.length_append, ih]
    simp
    omega

variable [LinearOrderedField α]

/-- The returned vector, read off the solution; the status plays no part in it. -/
theorem Solve_results (self : MPC) (solve : Solver α) (m : Trig α) (junk : Nat → Nat → α)
    (N : Nat) (dt : α) (M_PI : α) (state coeffs : List α) :
    (self.Solve solve m junk N dt M_PI state coeffs).results
      = [(MPC.Solve_solution solve m junk N dt M_PI state coeffs).x.getD (delta_start N) 0,
          (MPC.Solve_solution solve m junk N dt M_PI state coeffs).x.getD (a_start N) 0]
        ++ (List.range (N - 1)).flatMap (fun i =>
          [(MPC.Solve_solution solve m junk N dt M_PI state coeffs).x.getD
              (x_start + i + 1) 0,
            (MPC.Solve_solution solve m junk N dt M_PI state coeffs).x.getD
              (y_start N + i + 1) 0]) := by
  simp only [MPC.Solve, MPC.Solve_solution, List.nil_append]
  rw [forLoop_push]
  rfl

/-- The solution depends neither on the object nor on the fresh vectors' content. -/
theorem Solve_solution_junk_irrelevant (solve : Solver α) (m : Trig α)
    (junk1 junk2 : Nat → Nat → α) (N : Nat) (dt : α) (M_PI : α) (state coeffs : List α) :
    MPC.Solve_solution solve m junk1 N dt M_PI state coeffs
      = MPC.Solve_solution solve m junk2 N dt M_PI state coeffs := by
  simp only [MPC.Solve_solution, Solve_problem_junk_irrelevant junk1 junk2]

end Results

/-! ## The accesses of `FG_eval::operator()` -/

section Trace

/-- A loop whose body extends the record by `r t` and `w t` extends it by their
concatenation over the iterations. -/
theorem forLoop_traced (lo hi : Nat) (body : Nat → (Nat → α) → Nat → α)
    (tbody : Nat → Traced α → Traced α) (r w : Nat → List Nat)
    (h : ∀ t s, tbody t s = ⟨body t s.fg, s.reads ++ r t, s.writes ++ w t⟩) (s : Traced α) :
    forLoop lo hi tbody s
      = ⟨forLoop lo hi body s.fg, s.reads ++ (List.range' lo (hi - lo)).flatMap r,
          s.writes ++ (List.range' lo (hi - lo)).flatMap w⟩ := by
  rcases Nat.lt_or_ge lo hi with hlt | hge
  · obtain ⟨k, rfl⟩ : ∃ k, hi = lo + k := ⟨hi - lo, by omega⟩
    clear hlt
    induction k with
    | zero => simp [forLoop_of_le]
    | succ k ih =>
      rw [← Nat.add_assoc, forLoop_succ _ _ _ _ (by omega), forLoop_succ _ _ _ _ (by omega),
        ih, h]
      have e1 : lo + k + 1 - lo = k + 1 := by omega
      have e2 : lo + k - lo = k := by omega
      simp only [e1, e2, List.range'_1_concat, List.flatMap_append, List.flatMap_cons,
        List.flatMap_nil, List.append_nil, List.append_assoc]
  · rw [forLoop_of_le _ _ _ _ hge, forLoop_of_le _ _ _ _ hge, Nat.sub_eq_zero_of_le hge]
    simp

variable [LinearOrderedField α]

theorem cost_ref_traced_eq (N : Nat) (vars : Nat → α) (s : Traced α) :
    FG_eval.cost_ref_traced N vars s
      = ⟨FG_eval.cost_ref N vars s.fg,
          s.reads ++ (List.range' 0 (N - 0)).flatMap
            (fun t => [cte_start N + t, epsi_start N + t, v_start N + t]),
          s.writes ++ (List.range' 0 (N - 0)).flatMap (fun _ => [0, 0, 0])⟩ := by
  unfold FG_eval.cost_ref_traced FG_eval.cost_ref
  apply forLoop_traced
  intro t s
  simp [Traced.assign]

theorem cost_act_traced_eq (N : Nat) (vars : Nat → α) (s : Traced α) :
    FG_eval.cost_act_traced N vars s
      = ⟨FG_eval.cost_act N vars s.fg,
          s.reads ++ (List.range' 0 (N - 1 - 0)).flatMap
            (fun t => [delta_start N + t, a_start N + t]),
          s.writes ++ (List.range' 0 (N - 1 - 0)).flatMap (fun _ => [0, 0])⟩ := by
  unfold FG_eval.cost_act_traced FG_eval.cost_act
  apply forLoop_traced
  intro t s
  simp [Traced.assign]

theorem cost_dif_traced_eq (N : Nat) (vars : Nat → α) (s : Traced α) :
    FG_eval.cost_dif_traced N vars s
      = ⟨FG_eval.cost_dif N vars s.fg,
          s.reads ++ (List.range' 0 (N - 2 - 0)).flatMap
            (fun t => [delta_start N + t + 1, delta_start N + t, a_start N + t + 1,
              a_start N + t]),
          s.writes ++ (List.range' 0 (N - 2 - 0)).flatMap (fun _ => [0, 0])⟩ := by
  unfold FG_eval.cost_dif_traced FG_eval.cost_dif
  apply forLoop_traced
  intro t s
  simp [Traced.assign]

omit [LinearOrderedField α] in
theorem constraints_init_traced_eq (N : Nat) (vars : Nat → α) (s : Traced α) :
    FG_eval.constraints_init_traced N vars s
      = ⟨FG_eval.constraints_init N vars s.fg,
          s.reads ++ [x_start, y_start N, psi_start N, v_start N, cte_start N, epsi_start N],
          s.writes ++ [1 + x_start, 1 + y_start N, 1 + psi_start N, 1 + v_start N,
            1 + cte_start N, 1 + epsi_start N]⟩ := by
  simp [FG_eval.constraints_init_traced, FG_eval.constraints_init, Traced.assign]

theorem constraints_step_traced_eq (m : Trig α) (N : Nat) (dt : α) (c : FG_eval α)
    (vars : Nat → α) (t : Nat) (s : Traced α) :
    FG_eval.constraints_step_traced m N dt c vars t s
      = ⟨FG_eval.constraints_step m N dt c vars t s.fg,
          s.reads ++ [x_start + t, y_start N + t, psi_start N + t, v_start N + t,
            cte_start N + t, epsi_start N + t, x_start + t - 1, y_start N + t - 1,
            psi_start N + t - 1, v_start N + t - 1, cte_start N + t - 1,
            epsi_start N + t - 1, delta_start N + t - 1, a_start N + t - 1],
          s.writes ++ [1 + x_start + t, 1 + y_start N + t, 1 + psi_start N + t,
            1 + v_start N + t, 1 + cte_start N + t, 1 + epsi_start N + t]⟩ := by
  simp [FG_eval.constraints_step_traced, FG_eval.constraints_step, Traced.assign,
    Traced.read]

/-- The indices of `vars` that `FG_eval::operator()` reads, in program order. -/
theorem operator_traced_reads (m : Trig α) (N : Nat) (dt : α) (c : FG_eval α)
    (fg vars : Nat → α) :
    (c.operator_traced m N dt fg vars).reads
      = (List.range' 0 (N - 0)).flatMap
          (fun t => [cte_start N + t, epsi_start N + t, v_start N + t])
        ++ ((List.range' 0 (N - 1 - 0)).flatMap (fun t => [delta_start N + t, a_start N + t])
        ++ ((List.range' 0 (N - 2 - 0)).flatMap
            (fun t => [delta_start N + t + 1, delta_start N + t, a_start N + t + 1,
              a_start N + t])
        ++ ([x_start, y_start N, psi_start N, v_start N, cte_start N, epsi_start N]
        ++ (List.range' 1 (N - 1)).flatMap
            (fun t => [x_start + t, y_start N + t, psi_start N + t, v_start N + t,
              cte_start N + t, epsi_start N + t, x_start + t - 1, y_start N + t - 1,
              psi_start N + t - 1, v_start N + t - 1, cte_start N + t - 1,
              epsi_start N + t - 1, delta_start N + t - 1, a_start N + t - 1])))) := by
  simp only [FG_eval.operator_traced]
  rw [forLoop_traced 1 N _ _ _ _ (constraints_step_traced_eq m N dt c vars),
    constraints_init_traced_eq, cost_dif_traced_eq, cost_act_traced_eq, cost_ref_traced_eq]
  simp only [Traced.assign, List.append_nil, List.nil_append, List.append_assoc]

/-- The indices of `fg` that `FG_eval::operator()` assigns, in program order. -/
theorem operator_traced_writes (m : Trig α) (N : Nat) (dt : α) (c : FG_eval α)
    (fg vars : Nat → α) :
    (c.operator_traced m N dt fg vars).writes
      = ([0] ++ ((List.range' 0 (N - 0)).flatMap (fun _ => [0, 0, 0])
        ++ ((List.range' 0 (N - 1 - 0)).flatMap (fun _ => [0, 0])
        ++ (List.range' 0 (N - 2 - 0)).flatMap (fun _ => [0, 0]))))
        ++ ([1 + x_start, 1 + y_start N, 1 + psi_start N, 1 + v_start N, 1 + cte_start N,
            1 + epsi_start N]
        ++ (List.range' 1 (N - 1)).flatMap
            (fun t => [1 + x_start + t, 1 + y_start N + t, 1 + psi_start N + t,
              1 + v_start N + t, 1 + cte_start N + t, 1 + epsi_start N + t])) := by
  simp only [FG_eval.operator_traced]
  rw [forLoop_traced 1 N _ _ _ _ (constraints_step_traced_eq m N dt c vars),
    constraints_init_traced_eq, cost_dif_traced_eq, cost_act_traced_eq, cost_ref_traced_eq]
  simp only [Traced.assign, List.append_nil, List.nil_append, List.append_assoc]

/-- Recording the accesses does not change what is computed. -/
theorem operator_traced_fg (m : Trig α) (N : Nat) (dt : α) (c : FG_eval α)
    (fg vars : Nat → α) :
    (c.operator_traced m N dt fg vars).fg = c.operator m N dt fg vars := by
  simp only [FG_eval.operator_traced, FG_eval.operator]
  rw [forLoop_traced 1 N _ _ _ _ (constraints_step_traced_eq m N dt c vars),
    constraints_init_traced_eq, cost_dif_traced_eq, cost_act_traced_eq, cost_ref_traced_eq]
  simp only [Traced.assign]

omit [LinearOrderedField α] in
theorem cost_writes_mem (N j : Nat) (h : j ∈ cost_writes N) : j = 0 := by
  simp only [cost_writes, List.mem_append, List.mem_flatMap, List.mem_cons,
    List.mem_singleton, List.not_mem_nil, or_false, or_self] at h
  obtain h | ⟨t, _, h⟩ | ⟨t, _, h⟩ | ⟨t, _, h⟩ := h <;> exact h

omit [LinearOrderedField α] in
theorem constraint_writes_mem (N j : Nat) (hN : 1 ≤ N) :
    j ∈ constraint_writes N ↔ 1 ≤ j ∧ j ≤ 6 * N := by
  simp only [constraint_writes, List.mem_append, List.mem_flatMap, List.mem_range'_1,
    List.mem_cons, List.mem_singleton, List.not_mem_nil, or_false, y_start_eq, psi_start_eq,
    v_start_eq, cte_start_eq, epsi_start_eq, x_start]
  constructor
  · rintro (h | ⟨t, ht, h⟩) <;> omega
  · rintro ⟨h1, h2⟩
    by_cases c : j = 1 ∨ j = 1 + N ∨ j = 1 + 2 * N ∨ j = 1 + 3 * N ∨ j = 1 + 4 * N
        ∨ j = 1 + 5 * N
    · left
      omega
    · right
      by_cases c0 : j < 1 + N
      · exact ⟨j - 1, by omega, by omega⟩
      by_cases c1 : j < 1 + 2 * N
      · exact ⟨j - 1 - N, by omega, by omega⟩
      by_cases c2 : j < 1 + 3 * N
      · exact ⟨j - 1 - 2 * N, by omega, by omega⟩
      by_cases c3 : j < 1 + 4 * N
      · exact ⟨j - 1 - 3 * N, by omega, by omega⟩
      by_cases c4 : j < 1 + 5 * N
      · exact ⟨j - 1 - 4 * N, by omega, by omega⟩
      · exact ⟨j - 1 - 5 * N, by omega, by omega⟩

omit [LinearOrderedField α] in
theorem constraint_writes_nodup (N : Nat) (hN : 1 ≤ N) : (constraint_writes N).Nodup := by
  unfold constraint_writes
  refine List.Nodup.append ?_ (List.nodup_flatMap.2 ⟨fun t ht => ?_, ?_⟩) ?_
  · simp only [List.nodup_cons, List.mem_cons, List.mem_singleton, List.not_mem_nil,
      List.nodup_nil, or_false, not_false_eq_true, and_true, y_start_eq, psi_start_eq,
      v_start_eq, cte_start_eq, epsi_start_eq, x_start]
    omega
  · simp only [List.nodup_cons, List.mem_cons, List.mem_singleton, List.not_mem_nil,
      List.nodup_nil, or_false, not_false_eq_true, and_true, y_start_eq, psi_start_eq,
      v_start_eq, cte_start_eq, epsi_start_eq, x_start]
    omega
  · refine (List.pairwise_lt_range' 1 (N - 1)).imp_of_mem ?_
    intro a b ha hb hab
    rw [List.mem_range'_1] at ha hb
    simp only [Function.onFun, List.disjoint_left, List.mem_cons, List.mem_singleton,
      List.not_mem_nil, or_false, y_start_eq, psi_start_eq, v_start_eq, cte_start_eq,
      epsi_start_eq, x_start]
    intro x hx
    omega
  · simp only [List.disjoint_left, List.mem_flatMap, List.mem_range'_1, List.mem_cons,
      List.mem_singleton, List.not_mem_nil, or_false, y_start_eq, psi_start_eq, v_start_eq,
      cte_start_eq, epsi_start_eq, x_start]
    rintro x hx ⟨t, ht, h⟩
    omega

/-- The indices of `fg` assigned by `FG_eval::operator()`, in two groups. -/
theorem operator_traced_writes_split (m : Trig α) (N : Nat) (dt : α) (c : FG_eval α)
    (fg vars : Nat → α) :
    (c.operator_traced m N dt fg vars).writes = cost_writes N ++ constraint_writes N :=
  operator_traced_writes m N dt c fg vars

/-- Every read of `vars` is below the length of the variable vector. -/
theorem operator_traced_reads_lt (m : Trig α) (N : Nat) (dt : α) (c : FG_eval α)
    (fg vars : Nat → α) (hN : 2 ≤ N) (i : Nat)
    (hi : i ∈ (c.operator_traced m N dt fg vars).reads) : i < N * 6 + (N - 1) * 2 := by
  rw [operator_traced_reads] at hi
  simp only [List.mem_append, List.mem_flatMap, List.mem_range'_1, List.mem_cons,
    List.mem_singleton, List.not_mem_nil, or_false, y_start_eq, psi_start_eq, v_start_eq,
    cte_start_eq, epsi_start_eq, delta_start_eq, a_start_eq, x_start] at hi
  obtain ⟨t, ht, h⟩ | ⟨t, ht, h⟩ | ⟨t, ht, h⟩ | h | ⟨t, ht, h⟩ := hi <;> omega

/-- The assigned indices are `0 .. 6 N`, and each constraint slot is assigned once. -/
theorem operator_traced_writes_spec (m : Trig α) (N : Nat) (dt : α) (c : FG_eval α)
    (fg vars : Nat → α) (hN : 1 ≤ N) :
    (∀ j, j ∈ (c.operator_traced m N dt fg vars).writes ↔ j ≤ N * 6)
      ∧ ∀ j, 1 ≤ j → j ≤ N * 6 → (c.operator_traced m N dt fg vars).writes.count j = 1 := by
  rw [operator_traced_writes_split]
  constructor
  · intro j
    rw [List.mem_append, constraint_writes_mem N j hN]
    constructor
    · rintro (h | h)
      · have := cost_writes_mem N j h
        omega
      · omega
    · intro h
      rcases Nat.eq_zero_or_pos j with h0 | hpos
      · left
        subst h0
        simp [cost_writes]
      · right
        omega
  · intro j h1 h2
    rw [List.count_append, List.count_eq_zero.2 (fun h => by
      have := cost_writes_mem N j h
      omega), Nat.zero_add]
    exact List.count_eq_one_of_mem (constraint_writes_nodup N hN)
      ((constraint_writes_mem N j hN).2 ⟨h1, by omega⟩)

end Trace

/-! ## The properties of the specification, C1 to C19 -/

section Properties

variable [LinearOrderedField α]

set_option linter.unusedVariables false in
/-- C1: for every variable vector and every horizon `N ≥ 2`, the objective `fg[0]` that
`FG_eval::operator()` computes is `5000 Σ (cte_t - 0)² + 1000 Σ (epsi_t - 0)² +
1 Σ (v_t - 100)²` over `t = 0 .. N-1`, plus `1 Σ delta_t² + 1 Σ a_t²` over
`t = 0 .. N-2`, plus `1000 Σ (delta_{t+1} - delta_t)² + 10 Σ (a_{t+1} - a_t)²` over
`t = 0 .. N-3`, each field read at its layout offset in the flat vector. -/
theorem objective_is_weighted_sum (m : Trig α) (N : Nat) (dt : α) (c : FG_eval α)
    (fg vars : Nat → α) (hN : 2 ≤ N) :
    c.operator m N dt fg vars 0 =
      5000 * ∑ t in Finset.range N, ((declared_state N vars t).cte - 0) ^ 2
      + 1000 * ∑ t in Finset.range N, ((declared_state N vars t).epsi - 0) ^ 2
      + 1 * ∑ t in Finset.range N, ((declared_state N vars t).v - 100) ^ 2
      + 1 * ∑ t in Finset.range (N - 1), ((declared_actuation N vars t).delta) ^ 2
      + 1 * ∑ t in Finset.range (N - 1), ((declared_actuation N vars t).a) ^ 2
      + 1000 * ∑ t in Finset.range (N - 2),
          ((declared_actuation N vars (t + 1)).delta - (declared_actuation N vars t).delta) ^ 2
      + 10 * ∑ t in Finset.range (N - 2),
          ((declared_actuation N vars (t + 1)).a - (declared_actuation N vars t).a) ^ 2 :=
  operator_cost m N dt c fg vars

set_option linter.unusedVariables false in
/-- C6: for every variable vector the cost `fg[0]` computed by `FG_eval::operator()` is
non-negative, and it is exactly `0` whenever `cte_t = 0`, `epsi_t = 0` and `v_t = ref_v`
at every step `t` in `0 .. N-1` and every steering and acceleration entry is `0`. -/
theorem cost_nonneg_and_zero_on_reference (m : Trig α) (N : Nat) (dt : α) (c : FG_eval α)
    (fg vars : Nat → α) (hN : 2 ≤ N) :
    0 ≤ c.operator m N dt fg vars 0 ∧
      ((∀ t, t < N → (declared_state N vars t).cte = 0 ∧ (declared_state N vars t).epsi = 0
          ∧ (declared_state N vars t).v = ref_v) →
        (∀ t, t < N - 1 → (declared_actuation N vars t).delta = 0
          ∧ (declared_actuation N vars t).a = 0) →
        c.operator m N dt fg vars 0 = 0) :=
  ⟨operator_cost_nonneg m N dt c fg vars,
    fun hs ha => (operator_cost_eq_zero_iff m N dt c fg vars).2 ⟨hs, ha⟩⟩

set_option linter.unusedVariables false in
/-- C7 (amended): for every variable vector and horizon `N ≥ 2`, in `double` arithmetic
(every result rounded by `fl`, which is monotone and idempotent with `fl 0 = 0`; the
value `pw x` of `CppAD::pow(x, 2)` a non-negative `double`): if the cost `fg[0]` computed
by lines 67 to 88 of `FG_eval::operator()` is `0`, then every square it adds is `0` as
computed, that is `pow(cte_t - ref_cte, 2)`, `pow(epsi_t - ref_epsi, 2)`,
`pow(v_t - ref_v, 2)` for `t` in `0 .. N-1` and `pow(delta_t, 2)`, `pow(a_t, 2)` for `t`
in `0 .. N-2`; and where nothing is rounded (`fl x = x`, `pw x = x ^ 2`) this means
`cte_t = 0`, `epsi_t = 0`, `v_t = ref_v` and zero steering and acceleration. -/
theorem cost_zero_only_where_squares_vanish (fl pw : α → α) (N : Nat) (fg vars : Nat → α)
    (hmono : ∀ x y, x ≤ y → fl x ≤ fl y) (hidem : ∀ x, fl (fl x) = fl x) (h0 : fl 0 = 0)
    (hpw : ∀ x, 0 ≤ pw x) (hpwfix : ∀ x, fl (pw x) = pw x) (hN : 2 ≤ N)
    (hcost : FG_eval.cost_rounded fl pw N fg vars 0 = 0) :
    ((∀ t, t < N → pw (fl ((declared_state N vars t).cte - ref_cte)) = 0
          ∧ pw (fl ((declared_state N vars t).epsi - ref_epsi)) = 0
          ∧ pw (fl ((declared_state N vars t).v - ref_v)) = 0)
        ∧ ∀ t, t < N - 1 → pw ((declared_actuation N vars t).delta) = 0
          ∧ pw ((declared_actuation N vars t).a) = 0)
      ∧ ((∀ x, fl x = x) → (∀ x, pw x = x ^ 2) →
        (∀ t, t < N → (declared_state N vars t).cte = 0
            ∧ (declared_state N vars t).epsi = 0 ∧ (declared_state N vars t).v = ref_v)
          ∧ ∀ t, t < N - 1 → (declared_actuation N vars t).delta = 0
            ∧ (declared_actuation N vars t).a = 0) := by
  obtain ⟨hs, ha⟩ := cost_rounded_eq_zero fl pw hmono hidem h0 hpw hpwfix N fg vars hcost
  simp only [cte_start_eq, epsi_start_eq, v_start_eq, delta_start_eq, a_start_eq] at hs ha
  refine ⟨⟨fun t ht => hs t ht, fun t ht => ha t ht⟩, fun hid hsq => ?_⟩
  simp only [hid, hsq] at hs ha
  refine ⟨fun t ht => ?_, fun t ht => ?_⟩
  · obtain ⟨h1, h2, h3⟩ := hs t ht
    simp only [declared_state]
    refine ⟨?_, ?_, ?_⟩
    · simpa [ref_cte] using h1
    · simpa [ref_epsi] using h2
    · exact sub_eq_zero.1 (pow_eq_zero_iff two_ne_zero |>.1 h3)
  · obtain ⟨h1, h2⟩ := ha t ht
    simp only [declared_actuation]
    exact ⟨pow_eq_zero_iff two_ne_zero |>.1 h1, pow_eq_zero_iff two_ne_zero |>.1 h2⟩

/-- C2: for every variable vector and every step `t` in `1 .. N-1`, each of the six
constraint entries that `FG_eval::operator()` writes for step `t` is the declared state
at `t` minus the Vehicle Model prediction from the declared state and actuation at
`t - 1`, the prediction being the kinematic model of the specification with the
coefficients `coeffs[0 .. 3]` and the constant `Lf`. -/
theorem residual_is_declared_minus_predicted (m : Trig α) (N : Nat) (dt : α)
    (c : FG_eval α) (fg vars : Nat → α) (t : Nat) (ht1 : 1 ≤ t) (htN : t < N) :
    c.operator m N dt fg vars (1 + t)
        = (declared_state N vars t).x - (predicted_state m N dt c.coeffs vars t).x
      ∧ c.operator m N dt fg vars (1 + N + t)
        = (declared_state N vars t).y - (predicted_state m N dt c.coeffs vars t).y
      ∧ c.operator m N dt fg vars (1 + 2 * N + t)
        = (declared_state N vars t).psi - (predicted_state m N dt c.coeffs vars t).psi
      ∧ c.operator m N dt fg vars (1 + 3 * N + t)
        = (declared_state N vars t).v - (predicted_state m N dt c.coeffs vars t).v
      ∧ c.operator m N dt fg vars (1 + 4 * N + t)
        = (declared_state N vars t).cte - (predicted_state m N dt c.coeffs vars t).cte
      ∧ c.operator m N dt fg vars (1 + 5 * N + t)
        = (declared_state N vars t).epsi - (predicted_state m N dt c.coeffs vars t).epsi :=
  operator_transition m N dt c fg vars t ht1 htN

/-- C3 (amended): for every six-field current state and every horizon `N ≥ 2`, the
constraint bounds built by `MPC::Solve` have, at the six step-0 indices `0`, `N`, `2 N`,
`3 N`, `4 N`, `5 N` (the offsets `x_start` .. `epsi_start`), lower == upper == the
corresponding one of the six state fields. -/
theorem constraint_bounds_pin_state_at_offsets (junk : Nat → Nat → α) (N : Nat) (M_PI : α)
    (state coeffs : List α) (hN : 2 ≤ N) (hs : state.length = 6) :
    ∀ k, k < 6 →
      (MPC.Solve_problem junk N M_PI state coeffs).constraints_lowerbound[k * N]?
          = some (state.getD k 0)
        ∧ (MPC.Solve_problem junk N M_PI state coeffs).constraints_upperbound[k * N]?
          = some (state.getD k 0) := by
  intro k hk
  have hkN : k * N < 6 * N := by
    have := Nat.mul_le_mul_right N (show k ≤ 5 by omega)
    omega
  obtain ⟨h1, h2⟩ := constraints_bounds_getElem? junk N M_PI state coeffs (by omega) hs
    (k * N) hkN
  rw [h1, h2]
  interval_cases k
  all_goals
    split_ifs <;> first | omega | exact ⟨rfl, rfl⟩

set_option linter.unusedVariables false in
/-- C8: for every horizon `N ≥ 2` (and a six-field state), the variable bounds built by
`MPC::Solve` are `-1e10` and `+1e10` on each of the `6 N` state-field slots,
`-25 π / 180` and `+25 π / 180` on each of the `N - 1` steering slots, `-1.0` and
`+1.0` on each of the `N - 1` acceleration slots, and these three groups are all the
slots of the two vectors. -/
theorem variable_bounds_by_group (junk : Nat → Nat → α) (N : Nat) (M_PI : α)
    (state coeffs : List α) (hN : 2 ≤ N) (hs : state.length = 6) :
    (∀ i, i < 6 * N →
        (MPC.Solve_problem junk N M_PI state coeffs).vars_lowerbound[i]? = some (-1e10)
        ∧ (MPC.Solve_problem junk N M_PI state coeffs).vars_upperbound[i]? = some 1e10)
      ∧ (∀ t, t < N - 1 →
        (MPC.Solve_problem junk N M_PI state coeffs).vars_lowerbound[6 * N + t]?
          = some (-25 * M_PI / 180)
        ∧ (MPC.Solve_problem junk N M_PI state coeffs).vars_upperbound[6 * N + t]?
          = some (25 * M_PI / 180))
      ∧ (∀ t, t < N - 1 →
        (MPC.Solve_problem junk N M_PI state coeffs).vars_lowerbound[7 * N - 1 + t]?
          = some (-1.0)
        ∧ (MPC.Solve_problem junk N M_PI state coeffs).vars_upperbound[7 * N - 1 + t]?
          = some 1.0)
      ∧ (MPC.Solve_problem junk N M_PI state coeffs).vars_lowerbound.length
        = 6 * N + (N - 1) + (N - 1)
      ∧ (MPC.Solve_problem junk N M_PI state coeffs).vars_upperbound.length
        = 6 * N + (N - 1) + (N - 1) := by
  have hl := vars_lowerbound_getElem? junk N M_PI state coeffs (by omega) hs
  have hu := vars_upperbound_getElem? junk N M_PI state coeffs (by omega) hs
  have hlen := Solve_problem_lengths junk N M_PI state coeffs
  rw [hs] at hlen
  refine ⟨fun i hi => ?_, fun t ht => ?_, fun t ht => ?_, by omega, by omega⟩
  · rw [hl i (by omega), hu i (by omega), if_neg (by omega), if_neg (by omega),
      if_neg (by omega), if_neg (by omega)]
    exact ⟨rfl, rfl⟩
  · rw [hl _ (by omega), hu _ (by omega), if_neg (by omega), if_pos (by omega),
      if_neg (by omega), if_pos (by omega)]
    exact ⟨rfl, rfl⟩
  · rw [hl _ (by omega), hu _ (by omega), if_pos (by omega), if_pos (by omega)]
    exact ⟨rfl, rfl⟩

set_option linter.unusedVariables false in
/-- C9: for every horizon `N ≥ 2` and every six-field state, the initial-guess vector
and both variable-bound vectors built by `MPC::Solve` have length `N * 6 + (N - 1) * 2`,
and both constraint-bound vectors have length `N * 6`. -/
theorem vector_lengths (junk : Nat → Nat → α) (N : Nat) (M_PI : α)
    (state coeffs : List α) (hN : 2 ≤ N) (hs : state.length = 6) :
    (MPC.Solve_problem junk N M_PI state coeffs).vars.length = N * 6 + (N - 1) * 2
      ∧ (MPC.Solve_problem junk N M_PI state coeffs).vars_lowerbound.length
        = N * 6 + (N - 1) * 2
      ∧ (MPC.Solve_problem junk N M_PI state coeffs).vars_upperbound.length
        = N * 6 + (N - 1) * 2
      ∧ (MPC.Solve_problem junk N M_PI state coeffs).constraints_lowerbound.length = N * 6
      ∧ (MPC.Solve_problem junk N M_PI state coeffs).constraints_upperbound.length
        = N * 6 := by
  have hlen := Solve_problem_lengths junk N M_PI state coeffs
  rw [hs] at hlen
  exact hlen

set_option linter.unusedVariables false in
/-- C5: for every solution vector handed back by the solver and every horizon `N ≥ 2`,
`MPC::Solve` returns `[delta_0, a_0, x_1, y_1, x_2, y_2, ..., x_{N-1}, y_{N-1}]`: the
first actuation pair, then the predicted positions of steps `1 .. N-1` in increasing
step order, `2 N` values in total. -/
theorem results_layout (self : MPC) (solve : Solver α) (m : Trig α) (junk : Nat → Nat → α)
    (N : Nat) (dt : α) (M_PI : α) (state coeffs : List α) (solution : solve_result α)
    (hN : 2 ≤ N) (hsol : MPC.Solve_solution solve m junk N dt M_PI state coeffs = solution) :
    (self.Solve solve m junk N dt M_PI state coeffs).results
        = [(declared_actuation N (fun i => solution.x.getD i 0) 0).delta,
            (declared_actuation N (fun i => solution.x.getD i 0) 0).a]
          ++ (List.range (N - 1)).flatMap (fun i =>
            [(declared_state N (fun i => solution.x.getD i 0) (i + 1)).x,
              (declared_state N (fun i => solution.x.getD i 0) (i + 1)).y])
      ∧ (self.Solve solve m junk N dt M_PI state coeffs).results.length = 2 * N := by
  subst hsol
  simp only [Solve_results, declared_actuation, declared_state, delta_start_eq, a_start_eq,
    y_start_eq, x_start, Nat.zero_add, Nat.add_zero, Nat.add_assoc, List.length_append,
    length_flatMap_pair, List.length_cons, List.length_nil, true_and]
  omega

/-- C10: with `dt = 0.1`, `Lf = 2.67`, the coefficients `(0, 0, 0, 0)` and elementary
functions with `cos 0 = 1`, `sin 0 = 0`, `atan 0 = 0`: when the vector declares the
state `(0, 0, 0, 10, 0, 0)` and the actuation `(0, 0)` at step `t`, the six entries of
step `t + 1` are the declared next state minus `(1.0, 0, 0, 10, 0, 0)`, so they are all
zero if and only if the declared next state is that tuple. -/
theorem model_prediction_at_reference_input (m : Trig α) (c : FG_eval α) (N : Nat)
    (fg vars : Nat → α) (t : Nat) (hcos : m.cos 0 = 1) (hsin : m.sin 0 = 0)
    (hatan : m.atan 0 = 0) (hc : c.coeffs = [0, 0, 0, 0]) (ht : t + 1 < N)
    (hs : declared_state N vars t = ⟨0, 0, 0, 10, 0, 0⟩)
    (hu : declared_actuation N vars t = ⟨0, 0⟩) :
    (c.operator m N 0.1 fg vars (1 + (t + 1)) = (declared_state N vars (t + 1)).x - 1.0
        ∧ c.operator m N 0.1 fg vars (1 + N + (t + 1)) = (declared_state N vars (t + 1)).y - 0
        ∧ c.operator m N 0.1 fg vars (1 + 2 * N + (t + 1))
          = (declared_state N vars (t + 1)).psi - 0
        ∧ c.operator m N 0.1 fg vars (1 + 3 * N + (t + 1))
          = (declared_state N vars (t + 1)).v - 10
        ∧ c.operator m N 0.1 fg vars (1 + 4 * N + (t + 1))
          = (declared_state N vars (t + 1)).cte - 0
        ∧ c.operator m N 0.1 fg vars (1 + 5 * N + (t + 1))
          = (declared_state N vars (t + 1)).epsi - 0)
      ∧ ((c.operator m N 0.1 fg vars (1 + (t + 1)) = 0
          ∧ c.operator m N 0.1 fg vars (1 + N + (t + 1)) = 0
          ∧ c.operator m N 0.1 fg vars (1 + 2 * N + (t + 1)) = 0
          ∧ c.operator m N 0.1 fg vars (1 + 3 * N + (t + 1)) = 0
          ∧ c.operator m N 0.1 fg vars (1 + 4 * N + (t + 1)) = 0
          ∧ c.operator m N 0.1 fg vars (1 + 5 * N + (t + 1)) = 0)
        ↔ declared_state N vars (t + 1) = ⟨1.0, 0, 0, 10, 0, 0⟩) := by
  have hp : predicted_state m N 0.1 c.coeffs vars (t + 1) = ⟨1.0, 0, 0, 10, 0, 0⟩ := by
    simp only [predicted_state, Nat.add_sub_cancel, hs, hu, hc, vehicleModel, hcos, hsin,
      List.getD_cons_zero, List.getD_cons_succ]
    norm_num [hatan]
  obtain ⟨h1, h2, h3, h4, h5, h6⟩ := operator_transition m N 0.1 c fg vars (t + 1)
    (by omega) ht
  rw [hp] at h1 h2 h3 h4 h5 h6
  refine ⟨⟨h1, h2, h3, h4, h5, h6⟩, ?_⟩
  rw [h1, h2, h3, h4, h5, h6]
  rcases hd : declared_state N vars (t + 1) with ⟨x, y, psi, v, cte, epsi⟩
  simp only [State.mk.injEq, sub_zero, sub_eq_zero]

/-- C11: for every variable vector (and horizon `N ≥ 2`), the six step-0 constraint
entries that `FG_eval::operator()` leaves in `fg[1 + x_start]` .. `fg[1 + epsi_start]`
are the declared step-0 state variables `x_0, y_0, psi_0, v_0, cte_0, epsi_0` themselves:
no model term is subtracted. -/
theorem initial_residuals_are_declared_state (m : Trig α) (N : Nat) (dt : α)
    (c : FG_eval α) (fg vars : Nat → α) (hN : 2 ≤ N) :
    c.operator m N dt fg vars (1 + x_start) = vars x_start
      ∧ c.operator m N dt fg vars (1 + y_start N) = vars (y_start N)
      ∧ c.operator m N dt fg vars (1 + psi_start N) = vars (psi_start N)
      ∧ c.operator m N dt fg vars (1 + v_start N) = vars (v_start N)
      ∧ c.operator m N dt fg vars (1 + cte_start N) = vars (cte_start N)
      ∧ c.operator m N dt fg vars (1 + epsi_start N) = vars (epsi_start N)
      ∧ declared_state N vars 0 = ⟨vars x_start, vars (y_start N), vars (psi_start N),
          vars (v_start N), vars (cte_start N), vars (epsi_start N)⟩ := by
  have h := operator_init m N dt c fg vars (by omega)
  simp only [declared_state, y_start_eq, psi_start_eq, v_start_eq, cte_start_eq,
    epsi_start_eq, x_start, Nat.add_zero] at h ⊢
  exact ⟨h.1, h.2.1, h.2.2.1, h.2.2.2.1, h.2.2.2.2.1, h.2.2.2.2.2, trivial⟩

/-- C12: for every six-field current state and every horizon `N ≥ 2`, every constraint
entry that `FG_eval::operator()` fills with a transition residual (slot `fg[1 + i]`
assigned by iteration `t` of the transition loop, `1 ≤ t ≤ N-1`) has lower == upper == 0
at index `i` of the constraint bounds built by `MPC::Solve`. -/
theorem transition_bounds_are_zero (junk : Nat → Nat → α) (N : Nat) (M_PI : α)
    (state coeffs : List α) (t i : Nat) (hN : 2 ≤ N) (hs : state.length = 6)
    (ht1 : 1 ≤ t) (htN : t < N) (hw : writtenAt N t (1 + i)) :
    (MPC.Solve_problem junk N M_PI state coeffs).constraints_lowerbound[i]? = some 0
      ∧ (MPC.Solve_problem junk N M_PI state coeffs).constraints_upperbound[i]? = some 0 := by
  simp only [writtenAt, y_start_eq, psi_start_eq, v_start_eq, cte_start_eq, epsi_start_eq,
    x_start] at hw
  obtain ⟨h1, h2⟩ := constraints_bounds_getElem? junk N M_PI state coeffs (by omega) hs i
    (by omega)
  rw [h1, h2, if_neg (by omega), if_neg (by omega), if_neg (by omega), if_neg (by omega),
    if_neg (by omega), if_neg (by omega)]
  exact ⟨rfl, rfl⟩

set_option linter.unusedVariables false in
/-- C14: for every horizon `N ≥ 2` (six-field state, `M_PI ≥ 0`), the initial guess that
`MPC::Solve` passes to the solver is `0` in every one of its `N * 6 + (N - 1) * 2`
entries, and at every such index the variable bounds satisfy lower ≤ 0 ≤ upper. -/
theorem initial_guess_zero_within_bounds (junk : Nat → Nat → α) (N : Nat) (M_PI : α)
    (state coeffs : List α) (hN : 2 ≤ N) (hs : state.length = 6) (hpi : 0 ≤ M_PI) :
    (MPC.Solve_problem junk N M_PI state coeffs).vars
        = List.replicate (N * 6 + (N - 1) * 2) 0
      ∧ ∀ i, i < N * 6 + (N - 1) * 2 → ∃ l u,
          (MPC.Solve_problem junk N M_PI state coeffs).vars_lowerbound[i]? = some l
          ∧ (MPC.Solve_problem junk N M_PI state coeffs).vars_upperbound[i]? = some u
          ∧ l ≤ 0 ∧ 0 ≤ u := by
  refine ⟨by rw [Solve_problem_vars_eq_replicate, hs], fun i hi => ?_⟩
  refine ⟨_, _, vars_lowerbound_getElem? junk N M_PI state coeffs (by omega) hs i (by omega),
    vars_upperbound_getElem? junk N M_PI state coeffs (by omega) hs i (by omega), ?_, ?_⟩
  · split_ifs
    · norm_num
    · have : 0 ≤ 25 * M_PI / 180 := by positivity
      have e : -25 * M_PI / 180 = -(25 * M_PI / 180) := by ring
      rw [e]
      linarith
    · norm_num
  · split_ifs
    · norm_num
    · positivity
    · norm_num

set_option linter.unusedVariables false in
/-- C15: with the solver a function `solve` of its inputs, two calls of `MPC::Solve` with
the same state and the same reference-path coefficients return the same vector, whatever
the silent flag of either call (and whatever the fresh vectors held in either call). -/
theorem Solve_deterministic (self1 self2 : MPC) (silent1 silent2 : Bool) (solve : Solver α)
    (m : Trig α) (junk1 junk2 : Nat → Nat → α) (N : Nat) (dt : α) (M_PI : α)
    (state coeffs : List α) (hN : 2 ≤ N) (hs : state.length = 6) :
    ((self1.set_silent silent1).Solve solve m junk1 N dt M_PI state coeffs).results
      = ((self2.set_silent silent2).Solve solve m junk2 N dt M_PI state coeffs).results := by
  rw [Solve_results, Solve_results, Solve_solution_junk_irrelevant solve m junk1 junk2]

set_option linter.unusedVariables false in
/-- C13 (amended): `MPC::Solve` does not validate its input and has no error result: for
every horizon `N ≥ 2`, every `dt` (also `dt ≤ 0`) and every state vector with at least six
fields (also more than six), it builds the problem with `N * state.size() + (N - 1) * 2`
variables and `N * state.size()` constraints, calls the solver and returns the `2 N`
values read from the solver's solution. -/
theorem Solve_without_validation (self : MPC) (solve : Solver α) (m : Trig α)
    (junk : Nat → Nat → α) (N : Nat) (dt : α) (M_PI : α) (state coeffs : List α)
    (hN : 2 ≤ N) (hs : 6 ≤ state.length) :
    (MPC.Solve_problem junk N M_PI state coeffs).vars.length
        = N * state.length + (N - 1) * 2
      ∧ (MPC.Solve_problem junk N M_PI state coeffs).constraints_lowerbound.length
        = N * state.length
      ∧ (self.Solve solve m junk N dt M_PI state coeffs).results.length = 2 * N
      ∧ (self.Solve solve m junk N dt M_PI state coeffs).results
        = [(MPC.Solve_solution solve m junk N dt M_PI state coeffs).x.getD (delta_start N) 0,
            (MPC.Solve_solution solve m junk N dt M_PI state coeffs).x.getD (a_start N) 0]
          ++ (List.range (N - 1)).flatMap (fun i =>
            [(MPC.Solve_solution solve m junk N dt M_PI state coeffs).x.getD
                (x_start + i + 1) 0,
              (MPC.Solve_solution solve m junk N dt M_PI state coeffs).x.getD
                (y_start N + i + 1) 0]) := by
  have hlen := Solve_problem_lengths junk N M_PI state coeffs
  refine ⟨hlen.1, hlen.2.2.2.1, ?_, Solve_results self solve m junk N dt M_PI state coeffs⟩
  rw [Solve_results, List.length_append, length_flatMap_pair]
  simp only [List.length_cons, List.length_nil]
  omega

/-- C17: for every horizon `N ≥ 2` the layout offsets are `x_start = 0`, `y_start = N`,
`psi_start = 2 N`, `v_start = 3 N`, `cte_start = 4 N`, `epsi_start = 5 N`,
`delta_start = 6 N`, `a_start = 7 N - 1`; each field range starts where the previous one
ends; `a_start + (N - 1)` is the length of the variable vector that `MPC::Solve` builds
(six-field state); and every index of that vector lies in exactly one of the eight
field ranges. -/
theorem layout_partitions_variable_vector (junk : Nat → Nat → α) (N : Nat) (M_PI : α)
    (state coeffs : List α) (hN : 2 ≤ N) (hs : state.length = 6) :
    (x_start = 0 ∧ y_start N = N ∧ psi_start N = 2 * N ∧ v_start N = 3 * N
        ∧ cte_start N = 4 * N ∧ epsi_start N = 5 * N ∧ delta_start N = 6 * N
        ∧ a_start N = 7 * N - 1)
      ∧ (∀ k, k < 7 → field_start N (k + 1) = field_start N k + field_size N k)
      ∧ a_start N + (N - 1) = (MPC.Solve_problem junk N M_PI state coeffs).vars.length
      ∧ (∀ i, i < (MPC.Solve_problem junk N M_PI state coeffs).vars.length →
          ∃! k, k < 8 ∧ field_start N k ≤ i ∧ i < field_start N k + field_size N k) := by
  have hlen := (Solve_problem_lengths junk N M_PI state coeffs).1
  rw [hs] at hlen
  refine ⟨⟨rfl, y_start_eq N, psi_start_eq N, v_start_eq N, cte_start_eq N, epsi_start_eq N,
    delta_start_eq N, a_start_eq N⟩, ?_, ?_, ?_⟩
  · intro k hk
    interval_cases k <;>
      simp only [field_start, field_size, y_start_eq, psi_start_eq, v_start_eq, cte_start_eq,
        epsi_start_eq, delta_start_eq, a_start_eq, x_start] <;> omega
  · rw [hlen, a_start_eq]
    omega
  · intro i hi
    exact field_partition N i (by omega) (by omega)

/-- C16: for every horizon `N ≥ 2`, every six-field current state and every coefficient
vector, a variable vector satisfies all constraint bounds built by `MPC::Solve`
(lower ≤ entry of `FG_eval` ≤ upper at every constraint index) if and only if its
declared step-0 state is the supplied current state and, for every `t` in `1 .. N-1`,
its declared state at step `t` is the Vehicle Model prediction from its declared state
and actuation at step `t - 1`. -/
theorem feasible_iff_pinned_and_consistent (m : Trig α) (N : Nat) (dt : α)
    (junk : Nat → Nat → α) (M_PI : α) (state coeffs : List α) (fg vars : Nat → α)
    (hN : 2 ≤ N) (hs : state.length = 6) :
    satisfies_constraints m N dt (MPC.Solve_problem junk N M_PI state coeffs) fg vars ↔
      declared_state N vars 0 = State.ofVector state
        ∧ ∀ t, 1 ≤ t → t < N →
          declared_state N vars t = predicted_state m N dt coeffs vars t :=
  feasible_iff m N dt junk M_PI state coeffs fg vars (by omega) hs

/-- C19: for every six-field current state, coefficient vector and horizon `N ≥ 2`, two
variable vectors that both satisfy all constraint bounds built by `MPC::Solve` and agree
on every steering and acceleration entry declare the same state at every step, that is
they agree on every one of the `6 N` state entries. -/
theorem feasible_trajectory_unique (m : Trig α) (N : Nat) (dt : α) (junk : Nat → Nat → α)
    (M_PI : α) (state coeffs : List α) (fg1 fg2 vars1 vars2 : Nat → α) (hN : 2 ≤ N)
    (hs : state.length = 6)
    (h1 : satisfies_constraints m N dt (MPC.Solve_problem junk N M_PI state coeffs) fg1 vars1)
    (h2 : satisfies_constraints m N dt (MPC.Solve_problem junk N M_PI state coeffs) fg2 vars2)
    (hact : ∀ t, t < N - 1 → declared_actuation N vars1 t = declared_actuation N vars2 t) :
    (∀ t, t < N → declared_state N vars1 t = declared_state N vars2 t)
      ∧ ∀ i, i < 6 * N → vars1 i = vars2 i :=
  have h := feasible_states_agree m N dt junk M_PI state coeffs fg1 fg2 vars1 vars2
    (by omega) hs h1 h2 hact
  ⟨h, vars_eq_of_declared_state_eq N vars1 vars2 h⟩

/-- C18: for every horizon `N ≥ 2`, every index at which `FG_eval::operator()` reads the
variable vector is below `N * 6 + (N - 1) * 2`; the indices of `fg` it assigns are exactly
`0 .. N * 6`; and each constraint index `1 .. N * 6` is assigned exactly once. The
recorded execution computes the same `fg` as the plain one. -/
theorem accesses_in_range_and_single_assignment (m : Trig α) (N : Nat) (dt : α)
    (c : FG_eval α) (fg vars : Nat → α) (hN : 2 ≤ N) :
    (c.operator_traced m N dt fg vars).fg = c.operator m N dt fg vars
      ∧ (∀ i, i ∈ (c.operator_traced m N dt fg vars).reads → i < N * 6 + (N - 1) * 2)
      ∧ (∀ j, j ∈ (c.operator_traced m N dt fg vars).writes ↔ j ≤ N * 6)
      ∧ ∀ j, 1 ≤ j → j ≤ N * 6 → (c.operator_traced m N dt fg vars).writes.count j = 1 :=
  ⟨operator_traced_fg m N dt c fg vars,
    fun i hi => operator_traced_reads_lt m N dt c fg vars hN i hi,
    operator_traced_writes_spec m N dt c fg vars (by omega)⟩

end Properties

/-! ## The properties at concrete inputs -/

/-- At `N = 10` a solver that returns `x[i] = i` makes `MPC::Solve` return
`x[60], x[69]` and then `x[t], x[10 + t]` for `t = 1 .. 9`. -/
theorem results_layout_witness :
    2 ≤ 10 ∧ ((⟨false⟩ : MPC).Solve rampSolver trigQ (fun _ _ => 9) 10 0.1 M_PI_double
      [0, 0, 0, 50, 0, 0] [0, 0, 0, 0]).results
        = [60, 69, 1, 11, 2, 12, 3, 13, 4, 14, 5, 15, 6, 16, 7, 17, 8, 18, 9, 19] := by
  refine ⟨by decide, ?_⟩
  rw [(results_layout ⟨false⟩ rampSolver trigQ (fun _ _ => 9) 10 0.1 M_PI_double
    [0, 0, 0, 50, 0, 0] [0, 0, 0, 0] _ (by decide) rfl).1]
  have hlen := (Solve_problem_lengths (fun _ _ => (9 : ℚ)) 10 M_PI_double
    [0, 0, 0, 50, 0, 0] [0, 0, 0, 0]).1
  have hr : List.range (10 - 1) = [0, 1, 2, 3, 4, 5, 6, 7, 8] := by decide
  simp only [MPC.Solve_solution, rampSolver, hlen, declared_actuation, declared_state, hr,
    List.flatMap_cons, List.flatMap_nil, List.length_cons, List.length_nil,
    List.cons_append, List.nil_append]
  simp +decide only [getD_map_range]

/-- C4 fails on the code: with `N = 10` and a solver that reports `maxiter_exceeded`,
`MPC::Solve` still returns the actuation pair and the trajectory read from the last
iterate `x[i] = i / 1000`. -/
theorem Solve_returns_iterate_on_failure :
    (MPC.Solve_solution stalledSolver trigQ (fun _ _ => 9) 10 0.1 M_PI_double
        [0, 0, 0, 50, 0, 0] [0, 0, 0, 0]).status ≠ status_type.success
      ∧ ((⟨false⟩ : MPC).Solve stalledSolver trigQ (fun _ _ => 9) 10 0.1 M_PI_double
        [0, 0, 0, 50, 0, 0] [0, 0, 0, 0]).results
        = [60 / 1000, 69 / 1000, 1 / 1000, 11 / 1000, 2 / 1000, 12 / 1000, 3 / 1000,
            13 / 1000, 4 / 1000, 14 / 1000, 5 / 1000, 15 / 1000, 6 / 1000, 16 / 1000,
            7 / 1000, 17 / 1000, 8 / 1000, 18 / 1000, 9 / 1000, 19 / 1000] := by
  refine ⟨by simp [MPC.Solve_solution, stalledSolver], ?_⟩
  rw [Solve_results]
  have hlen := (Solve_problem_lengths (fun _ _ => (9 : ℚ)) 10 M_PI_double
    [0, 0, 0, 50, 0, 0] [0, 0, 0, 0]).1
  have hr : List.range (10 - 1) = [0, 1, 2, 3, 4, 5, 6, 7, 8] := by decide
  simp only [MPC.Solve_solution, stalledSolver, hlen, delta_start_eq, a_start_eq, y_start_eq,
    x_start, hr, List.flatMap_cons, List.flatMap_nil, List.length_cons, List.length_nil,
    List.cons_append, List.nil_append]
  simp +decide only [getD_map_range]
  norm_num

/-- The reference input of the specification at `N = 2` over the real numbers: all six
entries of step `1` vanish for the vector that declares `(1, 0, 0, 10, 0, 0)` there. -/
theorem model_prediction_at_reference_input_witness :
    (Real.cos 0 = 1 ∧ Real.sin 0 = 0 ∧ Real.arctan 0 = 0
        ∧ (⟨[0, 0, 0, 0]⟩ : FG_eval ℝ).coeffs = [0, 0, 0, 0] ∧ 0 + 1 < 2
        ∧ declared_state 2 (straightVars : Nat → ℝ) 0 = ⟨0, 0, 0, 10, 0, 0⟩
        ∧ declared_actuation 2 (straightVars : Nat → ℝ) 0 = ⟨0, 0⟩)
      ∧ (⟨[0, 0, 0, 0]⟩ : FG_eval ℝ).operator ⟨Real.cos, Real.sin, Real.arctan⟩ 2 0.1
          (fun _ => 0) straightVars (1 + (0 + 1)) = 0
      ∧ (⟨[0, 0, 0, 0]⟩ : FG_eval ℝ).operator ⟨Real.cos, Real.sin, Real.arctan⟩ 2 0.1
          (fun _ => 0) straightVars (1 + 2 + (0 + 1)) = 0
      ∧ (⟨[0, 0, 0, 0]⟩ : FG_eval ℝ).operator ⟨Real.cos, Real.sin, Real.arctan⟩ 2 0.1
          (fun _ => 0) straightVars (1 + 2 * 2 + (0 + 1)) = 0
      ∧ (⟨[0, 0, 0, 0]⟩ : FG_eval ℝ).operator ⟨Real.cos, Real.sin, Real.arctan⟩ 2 0.1
          (fun _ => 0) straightVars (1 + 3 * 2 + (0 + 1)) = 0
      ∧ (⟨[0, 0, 0, 0]⟩ : FG_eval ℝ).operator ⟨Real.cos, Real.sin, Real.arctan⟩ 2 0.1
          (fun _ => 0) straightVars (1 + 4 * 2 + (0 + 1)) = 0
      ∧ (⟨[0, 0, 0, 0]⟩ : FG_eval ℝ).operator ⟨Real.cos, Real.sin, Real.arctan⟩ 2 0.1
          (fun _ => 0) straightVars (1 + 5 * 2 + (0 + 1)) = 0 := by
  have hs : declared_state 2 (straightVars : Nat → ℝ) 0 = ⟨0, 0, 0, 10, 0, 0⟩ := by
    simp [declared_state, straightVars]
  have hu : declared_actuation 2 (straightVars : Nat → ℝ) 0 = ⟨0, 0⟩ := by
    simp [declared_actuation, straightVars]
  have h := model_prediction_at_reference_input (⟨Real.cos, Real.sin, Real.arctan⟩ : Trig ℝ)
    ⟨[0, 0, 0, 0]⟩ 2 (fun _ => 0) straightVars 0 Real.cos_zero Real.sin_zero
    Real.arctan_zero rfl (by decide) hs hu
  refine ⟨⟨Real.cos_zero, Real.sin_zero, Real.arctan_zero, rfl, by decide, hs, hu⟩, ?_⟩
  exact h.2.mpr (by simp [declared_state, straightVars]; norm_num)

/-- The objective at `N = 3` for the vector `vars[i] = i`, through the sum formula. -/
theorem objective_is_weighted_sum_witness :
    2 ≤ 3 ∧ (⟨[1, 2, 3, 4]⟩ : FG_eval ℚ).operator trigQ 3 0.1 (fun _ => 77)
      (fun i => (i : ℚ)) 0 = 3341838 := by
  refine ⟨by decide, ?_⟩
  rw [objective_is_weighted_sum trigQ 3 0.1 _ _ _ (by decide)]
  simp [Finset.sum_range_succ, declared_state, declared_actuation]
  norm_num

/-- The six entries of step `2` at `N = 3` for the vector `vars[i] = i`. -/
theorem residual_is_declared_minus_predicted_witness :
    (1 ≤ 2 ∧ 2 < 3) ∧
      (⟨[1, 2, 3, 4]⟩ : FG_eval ℚ).operator trigQ 3 0.1 (fun _ => 77) (fun i => (i : ℚ))
          (1 + 2) = 49 / 2
      ∧ (⟨[1, 2, 3, 4]⟩ : FG_eval ℚ).operator trigQ 3 0.1 (fun _ => 77) (fun i => (i : ℚ))
          (1 + 3 + 2) = -6
      ∧ (⟨[1, 2, 3, 4]⟩ : FG_eval ℚ).operator trigQ 3 0.1 (fun _ => 77) (fun i => (i : ℚ))
          (1 + 2 * 3 + 2) = -1633 / 267
      ∧ (⟨[1, 2, 3, 4]⟩ : FG_eval ℚ).operator trigQ 3 0.1 (fun _ => 77) (fun i => (i : ℚ))
          (1 + 3 * 3 + 2) = -11 / 10
      ∧ (⟨[1, 2, 3, 4]⟩ : FG_eval ℚ).operator trigQ 3 0.1 (fun _ => 77) (fun i => (i : ℚ))
          (1 + 4 * 3 + 2) = -8
      ∧ (⟨[1, 2, 3, 4]⟩ : FG_eval ℚ).operator trigQ 3 0.1 (fun _ => 77) (fun i => (i : ℚ))
          (1 + 5 * 3 + 2) = 6110 / 267 := by
  obtain ⟨h1, h2, h3, h4, h5, h6⟩ := residual_is_declared_minus_predicted trigQ 3 0.1
    ⟨[1, 2, 3, 4]⟩ (fun _ => 77) (fun i => (i : ℚ)) 2 (by decide) (by decide)
  refine ⟨⟨by decide, by decide⟩, ?_, ?_, ?_, ?_, ?_, ?_⟩
  · rw [h1]
    simp only [declared_state, declared_actuation, predicted_state, vehicleModel, trigQ, Lf]
    norm_num
  · rw [h2]
    simp only [declared_state, declared_actuation, predicted_state, vehicleModel, trigQ, Lf]
    norm_num
  · rw [h3]
    simp only [declared_state, declared_actuation, predicted_state, vehicleModel, trigQ, Lf]
    norm_num
  · rw [h4]
    simp only [declared_state, declared_actuation, predicted_state, vehicleModel, trigQ, Lf]
    norm_num
  · rw [h5]
    simp only [declared_state, declared_actuation, predicted_state, vehicleModel, trigQ, Lf]
    norm_num
  · rw [h6]
    simp only [declared_state, declared_actuation, predicted_state, vehicleModel, trigQ, Lf]
    norm_num

/-- A trajectory on the reference with the actuators at rest has cost `0`. -/
theorem cost_nonneg_and_zero_on_reference_witness :
    2 ≤ 2 ∧ 0 ≤ (⟨[1, 2, 3, 4]⟩ : FG_eval ℚ).operator trigQ 2 0.1 (fun _ => 77)
        (fun i => if i = 6 ∨ i = 7 then 100 else 0) 0
      ∧ (⟨[1, 2, 3, 4]⟩ : FG_eval ℚ).operator trigQ 2 0.1 (fun _ => 77)
        (fun i => if i = 6 ∨ i = 7 then 100 else 0) 0 = 0 := by
  have h := cost_nonneg_and_zero_on_reference trigQ 2 0.1 ⟨[1, 2, 3, 4]⟩ (fun _ => 77)
    (fun i => if i = 6 ∨ i = 7 then 100 else 0) (by decide)
  refine ⟨by decide, h.1, h.2 ?_ ?_⟩
  · intro t ht
    interval_cases t <;> simp [declared_state, ref_v]
  · intro t ht
    interval_cases t
    simp [declared_actuation]

/-- C7 as stated fails in `double` arithmetic: at `N = 10`, with `v_t = 100`, every
other entry `0` and `cte_0 = 2 ^ (-665)`, the square of `cte_0` underflows, the computed
cost is `0`, and `cte_0` is not `0`. -/
theorem cost_zero_with_nonzero_cte_counterexample :
    FG_eval.cost_rounded roundUnderflow powUnderflow 10 (fun _ => 77) tinyCteVars 0 = 0
      ∧ (declared_state 10 tinyCteVars 0).cte ≠ 0 :=
  ⟨tinyCteVars_cost_zero (fun _ => 77), by simp [declared_state, tinyCteVars]⟩

/-- For `tinyCteVars` at `N = 10` with underflow as the rounding, the cost is `0` and the
computed square of `cte_0 - ref_cte` is `0`. -/
theorem cost_zero_only_where_squares_vanish_witness :
    ((∀ x y, x ≤ y → roundUnderflow x ≤ roundUnderflow y)
        ∧ (∀ x, roundUnderflow (roundUnderflow x) = roundUnderflow x)
        ∧ roundUnderflow 0 = 0 ∧ (∀ x, 0 ≤ powUnderflow x)
        ∧ (∀ x, roundUnderflow (powUnderflow x) = powUnderflow x) ∧ 2 ≤ 10
        ∧ FG_eval.cost_rounded roundUnderflow powUnderflow 10 (fun _ => 77) tinyCteVars 0
          = 0)
      ∧ powUnderflow (roundUnderflow ((declared_state 10 tinyCteVars 0).cte - ref_cte))
        = 0 :=
  ⟨⟨roundUnderflow_mono, roundUnderflow_idem, roundUnderflow_zero, powUnderflow_nonneg,
      powUnderflow_fixed, by decide, tinyCteVars_cost_zero (fun _ => 77)⟩,
    ((cost_zero_only_where_squares_vanish roundUnderflow powUnderflow 10 (fun _ => 77)
      tinyCteVars roundUnderflow_mono roundUnderflow_idem roundUnderflow_zero
      powUnderflow_nonneg powUnderflow_fixed (by decide)
      (tinyCteVars_cost_zero (fun _ => 77))).1.1 0 (by decide)).1⟩

/-- C3 as stated fails: with `N = 10` and the state `(1, 2, 3, 4, 5, 6)` the bounds at
index `1` are `0`, not the second state field `2`. -/
theorem constraint_bounds_first_six_counterexample :
    ¬ ∀ i, i < 6 →
      (MPC.Solve_problem (fun _ _ => (9 : ℚ)) 10 M_PI_double [1, 2, 3, 4, 5, 6]
          [0, 0, 0, 0]).constraints_lowerbound[i]?
          = some (([1, 2, 3, 4, 5, 6] : List ℚ).getD i 0)
        ∧ (MPC.Solve_problem (fun _ _ => (9 : ℚ)) 10 M_PI_double [1, 2, 3, 4, 5, 6]
          [0, 0, 0, 0]).constraints_upperbound[i]?
          = some (([1, 2, 3, 4, 5, 6] : List ℚ).getD i 0) := by
  intro h
  have h1 := (h 1 (by decide)).1
  have h2 : (MPC.Solve_problem (fun _ _ => (9 : ℚ)) 10 M_PI_double [1, 2, 3, 4, 5, 6]
      [0, 0, 0, 0]).constraints_lowerbound[1]? = some 0 := by decide
  rw [h2] at h1
  simp at h1

/-- The pinned entries at `N = 10` for the state `(1, 2, 3, 4, 5, 6)`. -/
theorem constraint_bounds_pin_state_at_offsets_witness :
    (2 ≤ 10 ∧ ([1, 2, 3, 4, 5, 6] : List ℚ).length = 6) ∧
      ∀ k, k < 6 →
        (MPC.Solve_problem (fun _ _ => (9 : ℚ)) 10 M_PI_double [1, 2, 3, 4, 5, 6]
            [0, 0, 0, 0]).constraints_lowerbound[k * 10]?
            = some (([1, 2, 3, 4, 5, 6] : List ℚ).getD k 0)
          ∧ (MPC.Solve_problem (fun _ _ => (9 : ℚ)) 10 M_PI_double [1, 2, 3, 4, 5, 6]
            [0, 0, 0, 0]).constraints_upperbound[k * 10]?
            = some (([1, 2, 3, 4, 5, 6] : List ℚ).getD k 0) :=
  ⟨⟨by decide, by decide⟩,
    constraint_bounds_pin_state_at_offsets (fun _ _ => (9 : ℚ)) 10 M_PI_double
      [1, 2, 3, 4, 5, 6] [0, 0, 0, 0] (by decide) (by decide)⟩

/-- The variable bounds at `N = 10`: one slot of each group, and the lengths. -/
theorem variable_bounds_by_group_witness :
    (2 ≤ 10 ∧ ([0, 0, 0, 50, 0, 0] : List ℚ).length = 6) ∧
      (MPC.Solve_problem (fun _ _ => (9 : ℚ)) 10 M_PI_double [0, 0, 0, 50, 0, 0]
          [0, 0, 0, 0]).vars_lowerbound[59]? = some (-1e10 : ℚ)
      ∧ (MPC.Solve_problem (fun _ _ => (9 : ℚ)) 10 M_PI_double [0, 0, 0, 50, 0, 0]
          [0, 0, 0, 0]).vars_upperbound[6 * 10 + 8]? = some (25 * M_PI_double / 180)
      ∧ (MPC.Solve_problem (fun _ _ => (9 : ℚ)) 10 M_PI_double [0, 0, 0, 50, 0, 0]
          [0, 0, 0, 0]).vars_lowerbound[7 * 10 - 1 + 0]? = some (-1.0 : ℚ)
      ∧ (MPC.Solve_problem (fun _ _ => (9 : ℚ)) 10 M_PI_double [0, 0, 0, 50, 0, 0]
          [0, 0, 0, 0]).vars_upperbound.length = 6 * 10 + (10 - 1) + (10 - 1) := by
  have h := variable_bounds_by_group (fun _ _ => (9 : ℚ)) 10 M_PI_double [0, 0, 0, 50, 0, 0]
    [0, 0, 0, 0] (by decide) (by decide)
  exact ⟨⟨by decide, by decide⟩, (h.1 59 (by decide)).1, (h.2.1 8 (by decide)).2,
    (h.2.2.1 0 (by decide)).1, h.2.2.2.2⟩

/-- The lengths at `N = 10`: `78` variables and `60` constraints. -/
theorem vector_lengths_witness :
    (2 ≤ 10 ∧ ([0, 0, 0, 50, 0, 0] : List ℚ).length = 6) ∧
      (MPC.Solve_problem (fun _ _ => (9 : ℚ)) 10 M_PI_double [0, 0, 0, 50, 0, 0]
          [0, 0, 0, 0]).vars.length = 78
      ∧ (MPC.Solve_problem (fun _ _ => (9 : ℚ)) 10 M_PI_double [0, 0, 0, 50, 0, 0]
          [0, 0, 0, 0]).vars_lowerbound.length = 78
      ∧ (MPC.Solve_problem (fun _ _ => (9 : ℚ)) 10 M_PI_double [0, 0, 0, 50, 0, 0]
          [0, 0, 0, 0]).vars_upperbound.length = 78
      ∧ (MPC.Solve_problem (fun _ _ => (9 : ℚ)) 10 M_PI_double [0, 0, 0, 50, 0, 0]
          [0, 0, 0, 0]).constraints_lowerbound.length = 60
      ∧ (MPC.Solve_problem (fun _ _ => (9 : ℚ)) 10 M_PI_double [0, 0, 0, 50, 0, 0]
          [0, 0, 0, 0]).constraints_upperbound.length = 60 :=
  ⟨⟨by decide, by decide⟩,
    vector_lengths (fun _ _ => (9 : ℚ)) 10 M_PI_double [0, 0, 0, 50, 0, 0] [0, 0, 0, 0]
      (by decide) (by decide)⟩

/-- The step-0 entries at `N = 3` for the vector `vars[i] = i`: they are
`vars[0], vars[3], vars[6], vars[9], vars[12], vars[15]`. -/
theorem initial_residuals_are_declared_state_witness :
    2 ≤ 3
      ∧ (⟨[1, 2, 3, 4]⟩ : FG_eval ℚ).operator trigQ 3 0.1 (fun _ => 77) (fun i => (i : ℚ))
          (1 + x_start) = 0
      ∧ (⟨[1, 2, 3, 4]⟩ : FG_eval ℚ).operator trigQ 3 0.1 (fun _ => 77) (fun i => (i : ℚ))
          (1 + y_start 3) = 3
      ∧ (⟨[1, 2, 3, 4]⟩ : FG_eval ℚ).operator trigQ 3 0.1 (fun _ => 77) (fun i => (i : ℚ))
          (1 + psi_start 3) = 6
      ∧ (⟨[1, 2, 3, 4]⟩ : FG_eval ℚ).operator trigQ 3 0.1 (fun _ => 77) (fun i => (i : ℚ))
          (1 + v_start 3) = 9
      ∧ (⟨[1, 2, 3, 4]⟩ : FG_eval ℚ).operator trigQ 3 0.1 (fun _ => 77) (fun i => (i : ℚ))
          (1 + cte_start 3) = 12
      ∧ (⟨[1, 2, 3, 4]⟩ : FG_eval ℚ).operator trigQ 3 0.1 (fun _ => 77) (fun i => (i : ℚ))
          (1 + epsi_start 3) = 15 := by
  obtain ⟨h1, h2, h3, h4, h5, h6, -⟩ := initial_residuals_are_declared_state trigQ 3 0.1
    ⟨[1, 2, 3, 4]⟩ (fun _ => 77) (fun i => (i : ℚ)) (by decide)
  refine ⟨by decide, ?_, ?_, ?_, ?_, ?_, ?_⟩
  · rw [h1]; simp [x_start]
  · rw [h2]; simp [y_start_eq]
  · rw [h3]; simp [psi_start_eq]
  · rw [h4]; simp [v_start_eq]
  · rw [h5]; simp [cte_start_eq]
  · rw [h6]; simp [epsi_start_eq]

/-- At `N = 10`, the slot `fg[1 + 27]` is assigned by iteration `7` (heading, step `7`)
and the bounds at constraint index `27` are `0`. -/
theorem transition_bounds_are_zero_witness :
    (2 ≤ 10 ∧ ([1, 2, 3, 4, 5, 6] : List ℚ).length = 6 ∧ 1 ≤ 7 ∧ 7 < 10
        ∧ writtenAt 10 7 (1 + 27))
      ∧ (MPC.Solve_problem (fun _ _ => (9 : ℚ)) 10 M_PI_double [1, 2, 3, 4, 5, 6]
          [0, 0, 0, 0]).constraints_lowerbound[27]? = some 0
      ∧ (MPC.Solve_problem (fun _ _ => (9 : ℚ)) 10 M_PI_double [1, 2, 3, 4, 5, 6]
          [0, 0, 0, 0]).constraints_upperbound[27]? = some 0 :=
  have hw : writtenAt 10 7 (1 + 27) := by
    simp [writtenAt, x_start, y_start, psi_start, v_start, cte_start, epsi_start]
  ⟨⟨by decide, by decide, by decide, by decide, hw⟩,
    transition_bounds_are_zero (fun _ _ => (9 : ℚ)) 10 M_PI_double [1, 2, 3, 4, 5, 6]
      [0, 0, 0, 0] 7 27 (by decide) (by decide) (by decide) (by decide) hw⟩

/-- The initial guess at `N = 10` is `78` zeros, and the bounds at the steering slot `64`
enclose `0`. -/
theorem initial_guess_zero_within_bounds_witness :
    (2 ≤ 10 ∧ ([0, 0, 0, 50, 0, 0] : List ℚ).length = 6 ∧ 0 ≤ M_PI_double)
      ∧ (MPC.Solve_problem (fun _ _ => (9 : ℚ)) 10 M_PI_double [0, 0, 0, 50, 0, 0]
          [0, 0, 0, 0]).vars = List.replicate 78 0
      ∧ ∃ l u,
          (MPC.Solve_problem (fun _ _ => (9 : ℚ)) 10 M_PI_double [0, 0, 0, 50, 0, 0]
            [0, 0, 0, 0]).vars_lowerbound[64]? = some l
          ∧ (MPC.Solve_problem (fun _ _ => (9 : ℚ)) 10 M_PI_double [0, 0, 0, 50, 0, 0]
            [0, 0, 0, 0]).vars_upperbound[64]? = some u
          ∧ l ≤ 0 ∧ 0 ≤ u := by
  have hpi : 0 ≤ M_PI_double := by norm_num [M_PI_double]
  have h := initial_guess_zero_within_bounds (fun _ _ => (9 : ℚ)) 10 M_PI_double
    [0, 0, 0, 50, 0, 0] [0, 0, 0, 0] (by decide) (by decide) hpi
  exact ⟨⟨by decide, by decide, hpi⟩, h.1, h.2 64 (by decide)⟩

/-- Two calls at `N = 10`, one printing the cost and one silent, give the same vector. -/
theorem Solve_deterministic_witness :
    (2 ≤ 10 ∧ ([0, 0, 0, 50, 0, 0] : List ℚ).length = 6)
      ∧ (((⟨false⟩ : MPC).set_silent false).Solve stalledSolver trigQ (fun _ _ => 9) 10 0.1
          M_PI_double [0, 0, 0, 50, 0, 0] [0, 0, 0, 0]).results
        = (((⟨false⟩ : MPC).set_silent true).Solve stalledSolver trigQ (fun _ _ => 5) 10 0.1
          M_PI_double [0, 0, 0, 50, 0, 0] [0, 0, 0, 0]).results
      ∧ (((⟨false⟩ : MPC).set_silent false).Solve stalledSolver trigQ (fun _ _ => 9) 10 0.1
          M_PI_double [0, 0, 0, 50, 0, 0] [0, 0, 0, 0]).cout
        ≠ (((⟨false⟩ : MPC).set_silent true).Solve stalledSolver trigQ (fun _ _ => 5) 10 0.1
          M_PI_double [0, 0, 0, 50, 0, 0] [0, 0, 0, 0]).cout :=
  ⟨⟨by decide, by decide⟩,
    Solve_deterministic ⟨false⟩ ⟨false⟩ false true stalledSolver trigQ (fun _ _ => 9)
      (fun _ _ => 5) 10 0.1 M_PI_double [0, 0, 0, 50, 0, 0] [0, 0, 0, 0] (by decide)
      (by decide),
    by simp [MPC.Solve, MPC.set_silent]⟩

/-- C13 as stated fails: at `N = 10`, a state with seven fields is not rejected (the
solver is called with `88` variables and its solution is returned), and neither is
`dt = 0` with a six-field state. -/
theorem Solve_no_fail_fast_counterexample :
    ([1, 2, 3, 4, 5, 6, 7] : List ℚ).length ≠ 6
      ∧ (MPC.Solve_solution rampSolver trigQ (fun _ _ => 9) 10 0.1 M_PI_double
          [1, 2, 3, 4, 5, 6, 7] [0, 0, 0, 0]).x.length = 88
      ∧ ((⟨false⟩ : MPC).Solve rampSolver trigQ (fun _ _ => 9) 10 0.1 M_PI_double
          [1, 2, 3, 4, 5, 6, 7] [0, 0, 0, 0]).results
        = [60, 69, 1, 11, 2, 12, 3, 13, 4, 14, 5, 15, 6, 16, 7, 17, 8, 18, 9, 19]
      ∧ ((⟨false⟩ : MPC).Solve rampSolver trigQ (fun _ _ => 9) 10 0 M_PI_double
          [0, 0, 0, 50, 0, 0] [0, 0, 0, 0]).results
        = [60, 69, 1, 11, 2, 12, 3, 13, 4, 14, 5, 15, 6, 16, 7, 17, 8, 18, 9, 19] := by
  have hlen7 := (Solve_problem_lengths (fun _ _ => (9 : ℚ)) 10 M_PI_double
    [1, 2, 3, 4, 5, 6, 7] [0, 0, 0, 0]).1
  have hlen6 := (Solve_problem_lengths (fun _ _ => (9 : ℚ)) 10 M_PI_double
    [0, 0, 0, 50, 0, 0] [0, 0, 0, 0]).1
  have hr : List.range (10 - 1) = [0, 1, 2, 3, 4, 5, 6, 7, 8] := by decide
  refine ⟨by decide, ?_, ?_, ?_⟩
  · simp only [MPC.Solve_solution, rampSolver, hlen7, List.length_map, List.length_range,
      List.length_cons, List.length_nil]
  · rw [Solve_results]
    simp only [MPC.Solve_solution, rampSolver, hlen7, delta_start_eq, a_start_eq, y_start_eq,
      x_start, hr, List.flatMap_cons, List.flatMap_nil, List.length_cons, List.length_nil,
      List.cons_append, List.nil_append]
    simp +decide only [getD_map_range]
  · rw [Solve_results]
    simp only [MPC.Solve_solution, rampSolver, hlen6, delta_start_eq, a_start_eq, y_start_eq,
      x_start, hr, List.flatMap_cons, List.flatMap_nil, List.length_cons, List.length_nil,
      List.cons_append, List.nil_append]
    simp +decide only [getD_map_range]

/-- A call with a seven-field state and `dt = -1` at `N = 10` returns `20` values. -/
theorem Solve_without_validation_witness :
    (2 ≤ 10 ∧ 6 ≤ ([1, 2, 3, 4, 5, 6, 7] : List ℚ).length)
      ∧ (MPC.Solve_problem (fun _ _ => (9 : ℚ)) 10 M_PI_double [1, 2, 3, 4, 5, 6, 7]
          [0, 0, 0, 0]).vars.length = 10 * 7 + (10 - 1) * 2
      ∧ ((⟨false⟩ : MPC).Solve rampSolver trigQ (fun _ _ => 9) 10 (-1) M_PI_double
          [1, 2, 3, 4, 5, 6, 7] [0, 0, 0, 0]).results.length = 2 * 10 := by
  have h := Solve_without_validation ⟨false⟩ rampSolver trigQ (fun _ _ => 9) 10 (-1)
    M_PI_double [1, 2, 3, 4, 5, 6, 7] [0, 0, 0, 0] (by decide) (by decide)
  exact ⟨⟨by decide, by decide⟩, h.1, h.2.2.1⟩

/-- The layout at `N = 10`: the offsets, and the length `78` of the variable vector. -/
theorem layout_partitions_variable_vector_witness :
    (2 ≤ 10 ∧ ([0, 0, 0, 50, 0, 0] : List ℚ).length = 6)
      ∧ (x_start = 0 ∧ y_start 10 = 10 ∧ psi_start 10 = 20 ∧ v_start 10 = 30
        ∧ cte_start 10 = 40 ∧ epsi_start 10 = 50 ∧ delta_start 10 = 60 ∧ a_start 10 = 69)
      ∧ a_start 10 + (10 - 1) = (MPC.Solve_problem (fun _ _ => (9 : ℚ)) 10 M_PI_double
          [0, 0, 0, 50, 0, 0] [0, 0, 0, 0]).vars.length
      ∧ ∃! k, k < 8 ∧ field_start 10 k ≤ 69 ∧ 69 < field_start 10 k + field_size 10 k := by
  have h := layout_partitions_variable_vector (fun _ _ => (9 : ℚ)) 10 M_PI_double
    [0, 0, 0, 50, 0, 0] [0, 0, 0, 0] (by decide) (by decide)
  refine ⟨⟨by decide, by decide⟩, h.1, h.2.2.1, h.2.2.2 69 ?_⟩
  rw [← h.2.2.1]
  decide

/-- The vector `straightVars` satisfies the constraint bounds at `N = 2` for the state
`(0, 0, 0, 10, 0, 0)`, and it is pinned and consistent. -/
theorem feasible_iff_pinned_and_consistent_witness :
    (2 ≤ 2 ∧ ([0, 0, 0, 10, 0, 0] : List ℚ).length = 6)
      ∧ satisfies_constraints trigQ 2 0.1
        (MPC.Solve_problem (fun _ _ => 9) 2 M_PI_double [0, 0, 0, 10, 0, 0] [0, 0, 0, 0])
        (fun _ => 77) (fun i => if i < 14 then straightVars i else 0)
      ∧ declared_state 2 (fun i => if i < 14 then (straightVars i : ℚ) else 0) 0
        = State.ofVector [0, 0, 0, 10, 0, 0]
      ∧ ∀ t, 1 ≤ t → t < 2 →
          declared_state 2 (fun i => if i < 14 then (straightVars i : ℚ) else 0) t
            = predicted_state trigQ 2 0.1 [0, 0, 0, 0]
              (fun i => if i < 14 then (straightVars i : ℚ) else 0) t :=
  have hf := straightVars_feasible (fun _ _ => 9) (fun _ => 77) (fun _ => 0)
  ⟨⟨by decide, by decide⟩, hf,
    (feasible_iff_pinned_and_consistent trigQ 2 0.1 (fun _ _ => 9) M_PI_double
      [0, 0, 0, 10, 0, 0] [0, 0, 0, 0] (fun _ => 77) _ (by decide) (by decide)).1 hf⟩

/-- Two feasible vectors at `N = 2` that differ only beyond the layout agree on the `12`
state entries. -/
theorem feasible_trajectory_unique_witness :
    (2 ≤ 2 ∧ ([0, 0, 0, 10, 0, 0] : List ℚ).length = 6
        ∧ satisfies_constraints trigQ 2 0.1
          (MPC.Solve_problem (fun _ _ => 9) 2 M_PI_double [0, 0, 0, 10, 0, 0] [0, 0, 0, 0])
          (fun _ => 77) (fun i => if i < 14 then straightVars i else 0)
        ∧ satisfies_constraints trigQ 2 0.1
          (MPC.Solve_problem (fun _ _ => 9) 2 M_PI_double [0, 0, 0, 10, 0, 0] [0, 0, 0, 0])
          (fun _ => 5) (fun i => if i < 14 then straightVars i else 3)
        ∧ ∀ t, t < 2 - 1 →
          declared_actuation 2 (fun i => if i < 14 then (straightVars i : ℚ) else 0) t
            = declared_actuation 2 (fun i => if i < 14 then (straightVars i : ℚ) else 3) t)
      ∧ ∀ i, i < 6 * 2 →
          (fun i => if i < 14 then (straightVars i : ℚ) else 0) i
            = (fun i => if i < 14 then (straightVars i : ℚ) else 3) i := by
  have hf1 := straightVars_feasible (fun _ _ => 9) (fun _ => 77) (fun _ => 0)
  have hf2 := straightVars_feasible (fun _ _ => 9) (fun _ => 5) (fun _ => 3)
  have hact : ∀ t, t < 2 - 1 →
      declared_actuation 2 (fun i => if i < 14 then (straightVars i : ℚ) else 0) t
        = declared_actuation 2 (fun i => if i < 14 then (straightVars i : ℚ) else 3) t := by
    intro t ht
    obtain rfl : t = 0 := by omega
    simp [declared_actuation]
  exact ⟨⟨by decide, by decide, hf1, hf2, hact⟩,
    (feasible_trajectory_unique trigQ 2 0.1 (fun _ _ => 9) M_PI_double [0, 0, 0, 10, 0, 0]
      [0, 0, 0, 0] (fun _ => 77) (fun _ => 5) _ _ (by decide) (by decide) hf1 hf2 hact).2⟩

/-- The assignments at `N = 2`: nine to `fg[0]`, then the step-0 slots `1, 3, .., 11`,
then the slots `2, 4, .., 12` of step `1`; every read is below `14`. -/
theorem accesses_in_range_and_single_assignment_witness :
    2 ≤ 2
      ∧ ((⟨[1, 2, 3, 4]⟩ : FG_eval ℚ).operator_traced trigQ 2 0.1 (fun _ => 77)
          (fun i => (i : ℚ))).writes
        = [0, 0, 0, 0, 0, 0, 0, 0, 0, 1, 3, 5, 7, 9, 11, 2, 4, 6, 8, 10, 12]
      ∧ (∀ i, i ∈ ((⟨[1, 2, 3, 4]⟩ : FG_eval ℚ).operator_traced trigQ 2 0.1 (fun _ => 77)
          (fun i => (i : ℚ))).reads → i < 2 * 6 + (2 - 1) * 2)
      ∧ ∀ j, 1 ≤ j → j ≤ 2 * 6 →
          ((⟨[1, 2, 3, 4]⟩ : FG_eval ℚ).operator_traced trigQ 2 0.1 (fun _ => 77)
            (fun i => (i : ℚ))).writes.count j = 1 := by
  have h := accesses_in_range_and_single_assignment trigQ 2 0.1 ⟨[1, 2, 3, 4]⟩
    (fun _ => 77) (fun i => (i : ℚ)) (by decide)
  exact ⟨by decide, by decide, h.2.1, h.2.2.2⟩

end MPCController
